import Mathlib

/-!
Verification of the Prototype-pattern cloud-resource repository.

The development shallowly embeds the Python sources:
* `src/app/domain/abstractions/prototype.py` (`CloneableResource`, `PrototypeMetadata`),
* `src/app/domain/abstractions/products.py` (`CloudResource`, `ResourceStatus`),
* `src/app/domain/services/prototype_service.py` (`PrototypeManager`),
* `src/app/domain/products/aws_products.py` (`EC2Instance`, `ApplicationLoadBalancer`),
* `src/app/domain/products/gcp_products.py` (`ComputeEngineInstance`),
* `src/app/infrastructure/repository.py` (`VMRepository`).

Modelling conventions:
* `uuid.uuid4()` draws are modelled by a counter (`Gen.nextId`): each draw
  returns a value never returned before, which is the property the code
  relies on.  Identifiers are therefore `Nat`s.
* `datetime.now()` is modelled by a strictly increasing clock (`Gen.clock`);
  timestamps are `Nat`s.
* Python dicts are modelled as insertion-ordered association lists; dict
  assignment replaces the value in place when the key is present and
  appends otherwise, exactly like CPython dicts.
* Mutation of the shared singleton state is modelled by explicit state
  passing: every mutating operation returns the updated state.
-/

/-- `ResourceStatus` enum from `src/app/domain/abstractions/products.py`. -/
inductive ResourceStatus where
  | creating
  | running
  | stopped
  | deleting
  | error
deriving DecidableEq, Repr

/-- Source of fresh identifiers (`uuid.uuid4()` draws, field `nextId`) and of
timestamps (`datetime.now()`, field `clock`). -/
structure Gen where
  nextId : Nat
  clock : Nat
deriving DecidableEq, Repr

/-- One `uuid.uuid4()` draw: returns an id never produced before. -/
def freshId (g : Gen) : Nat × Gen :=
  (g.nextId, { g with nextId := g.nextId + 1 })

/-- One `datetime.now()` reading; the clock then advances, so later readings
are strictly larger. -/
def nowTime (g : Gen) : Nat × Gen :=
  (g.clock, { g with clock := g.clock + 1 })

/-- State of a `CloudResource` (fields set in `CloneableResource.__init__`
and `CloudResource.__init__`).  `resource_id` is the pair
(`rid_stem`, `rid_uid`): the Python id is `f"{stem}-{uuid4hex}"`, and
`CloneableResource.clone` keeps the stem (`self.resource_id.split('-')[0]`)
while drawing a fresh uuid part. -/
structure Resource where
  rid_stem : String
  rid_uid : Nat
  name : String
  region : String
  status : ResourceStatus
  tags : List (String × String)
  prototype_id : Nat
  is_prototype : Bool
  cloned_from : Option Nat
  clone_count : Nat
  created_at : Nat
  last_cloned_at : Option Nat
deriving DecidableEq, Repr

/-- `CloudResource.can_be_cloned` (products.py lines 52-59): true exactly on
the stable statuses `running`, `stopped`, `creating`. -/
def can_be_cloned (r : Resource) : Bool :=
  r.status = ResourceStatus.running ∨ r.status = ResourceStatus.stopped ∨
    r.status = ResourceStatus.creating

/-- `CloneableResource.mark_as_prototype` (prototype.py lines 102-111):
sets the `is_prototype` flag and, when the given name is truthy (non-empty),
overwrites the display name. -/
def mark_as_prototype (r : Resource) (prototype_name : String) : Resource :=
  { r with is_prototype := true,
           name := if prototype_name = "" then r.name else prototype_name }

/-- `CloneableResource.clone` (prototype.py lines 61-84).  Returns
`(clone, updated source, updated generator)`:

* `copy.deepcopy(self)` — the clone starts from the source's data;
* the clone gets a fresh uuid part for its `resource_id` (same stem), a
  fresh `prototype_id`, `is_prototype = False`,
  `cloned_from = self.prototype_id`, `clone_count = 0`,
  `created_at = now()`, `last_cloned_at = None`;
* afterwards the source's `clone_count` is incremented and its
  `last_cloned_at` set to `now()`. -/
def clone (r : Resource) (g : Gen) : Resource × Resource × Gen :=
  let (rid, g1) := freshId g
  let (pid, g2) := freshId g1
  let (t1, g3) := nowTime g2
  let cloned : Resource :=
    { r with rid_uid := rid, prototype_id := pid, is_prototype := false,
             cloned_from := some r.prototype_id, clone_count := 0,
             created_at := t1, last_cloned_at := none }
  let (t2, g4) := nowTime g3
  let src : Resource :=
    { r with clone_count := r.clone_count + 1, last_cloned_at := some t2 }
  (cloned, src, g4)

/-- A resource is well formed with respect to a generator when every id it
holds was produced by an earlier draw and every timestamp it holds was read
from an earlier clock value.  Every resource actually built by the program
satisfies this. -/
def WFRes (g : Gen) (r : Resource) : Prop :=
  r.rid_uid < g.nextId ∧ r.prototype_id < g.nextId ∧
    r.created_at ≤ g.clock ∧ (∀ t, r.last_cloned_at = some t → t ≤ g.clock)

instance (g : Gen) (r : Resource) : Decidable (WFRes g r) := by
  unfold WFRes
  have : Decidable (∀ t, r.last_cloned_at = some t → t ≤ g.clock) := by
    cases h : r.last_cloned_at with
    | none => exact isTrue (by simp)
    | some t => exact decidable_of_iff (t ≤ g.clock) (by simp)
  exact instDecidableAnd

/-- Sample well-formed running resource used by the concrete witnesses. -/
def sampleRes : Resource :=
  { rid_stem := "i", rid_uid := 0, name := "web-template", region := "us-east-1",
    status := ResourceStatus.running, tags := [("env", "dev")],
    prototype_id := 1, is_prototype := true, cloned_from := none,
    clone_count := 2, created_at := 3, last_cloned_at := some 4 }

/-- Sample generator state compatible with `sampleRes`. -/
def sampleGen : Gen := { nextId := 5, clock := 10 }

/-! ### Association-list model of CPython dicts -/

/-- Dict lookup (`d.get(k)` / `d[k]`): first binding of the key. -/
def alget {kt vt : Type} [DecidableEq kt] (l : List (kt × vt)) (k : kt) :
    Option vt :=
  match l with
  | [] => none
  | (k', v) :: rest => if k' = k then some v else alget rest k

/-- Dict assignment (`d[k] = v`): replaces the value in place when the key
is present, appends the binding otherwise (CPython insertion order). -/
def alset {kt vt : Type} [DecidableEq kt] (l : List (kt × vt)) (k : kt)
    (v : vt) : List (kt × vt) :=
  match l with
  | [] => [(k, v)]
  | (k', v') :: rest =>
      if k' = k then (k', v) :: rest else (k', v') :: alset rest k v

/-- Dict deletion (`del d[k]`). -/
def aldel {kt vt : Type} [DecidableEq kt] (l : List (kt × vt)) (k : kt) :
    List (kt × vt) :=
  l.filter (fun p => p.1 ≠ k)

/-! ### The `PrototypeManager` registry -/

/-- `PrototypeMetadata` (prototype.py lines 127-155): registry-side metadata
of one prototype.  `usage_count` starts at 0. -/
structure Metadata where
  mname : String
  description : String
  category : String
  mtags : List (String × String)
  usage_count : Nat
deriving DecidableEq, Repr

/-- State of the `PrototypeManager` singleton
(prototype_service.py lines 37-45): the three insertion-ordered dicts
`_prototypes`, `_metadata`, `_categories`, together with the uuid/clock
generator. -/
structure Manager where
  prototypes : List (Nat × Resource)
  metadata : List (Nat × Metadata)
  categories : List (String × List Nat)
  gen : Gen
deriving DecidableEq, Repr

/-- The manager right after `PrototypeManager.__init__`: all three dicts
empty (`_initialize_default_prototypes` adds nothing). -/
def initManager : Manager :=
  { prototypes := [], metadata := [], categories := [], gen := ⟨0, 0⟩ }

/-- `PrototypeManager.register_prototype` (prototype_service.py lines
53-90): draws a fresh prototype id, marks the resource as a prototype
(setting its display name), creates metadata with `usage_count = 0`, stores
resource and metadata under the new id, and appends the id to its
category's list (the category entry is created on first use). -/
def register_prototype (m : Manager) (r : Resource) (name description
    category : String) (tags : List (String × String)) : Nat × Manager :=
  let (prototype_id, g1) := freshId m.gen
  let r' := mark_as_prototype r name
  let md : Metadata := ⟨name, description, category, tags, 0⟩
  let cats :=
    match alget m.categories category with
    | none => alset m.categories category [prototype_id]
    | some l => alset m.categories category (l ++ [prototype_id])
  (prototype_id,
   { prototypes := alset m.prototypes prototype_id r',
     metadata := alset m.metadata prototype_id md,
     categories := cats,
     gen := g1 })

/-- `PrototypeManager.get_prototype` (lines 92-102). -/
def get_prototype (m : Manager) (prototype_id : Nat) : Option Resource :=
  alget m.prototypes prototype_id

/-- `PrototypeManager.clone_prototype` (lines 104-136).  Returns `None` and
leaves the state untouched both when the id is absent and when the stored
prototype reports `can_be_cloned() == False`.  Otherwise runs
`prototype.clone()` (which mutates the stored source in place), optionally
overwrites the clone's display name (`if new_name:` — truthy check), and
increments the metadata `usage_count`. -/
def clone_prototype (m : Manager) (prototype_id : Nat)
    (new_name : Option String) : Option Resource × Manager :=
  match get_prototype m prototype_id with
  | none => (none, m)
  | some p =>
    if can_be_cloned p then
      let (cloned, src, g') := clone p m.gen
      let cloned' :=
        match new_name with
        | some n => if n = "" then cloned else { cloned with name := n }
        | none => cloned
      let md' :=
        match alget m.metadata prototype_id with
        | some md =>
            alset m.metadata prototype_id
              { md with usage_count := md.usage_count + 1 }
        | none => m.metadata
      (some cloned',
       { m with prototypes := alset m.prototypes prototype_id src,
                metadata := md', gen := g' })
    else (none, m)

/-- `PrototypeManager.remove_prototype` (lines 217-246): returns `False`
when the id is unknown; otherwise filters the id out of its metadata
category's list and deletes the id from `_prototypes` and `_metadata`. -/
def remove_prototype (m : Manager) (prototype_id : Nat) : Bool × Manager :=
  match alget m.prototypes prototype_id with
  | none => (false, m)
  | some _ =>
    let cats :=
      match alget m.metadata prototype_id with
      | some md =>
          match alget m.categories md.category with
          | some l =>
              alset m.categories md.category
                (l.filter (fun pid => pid ≠ prototype_id))
          | none => m.categories
      | none => m.categories
    (true,
     { m with prototypes := aldel m.prototypes prototype_id,
              metadata := aldel m.metadata prototype_id,
              categories := cats })

/-! ### Statistics (`PrototypeManager.get_statistics`, lines 257-294) -/

/-- The `most_used` record built inside `get_statistics`. -/
structure MostUsed where
  prototype_id : Nat
  mname : String
  usage_count : Nat
deriving DecidableEq, Repr

/-- Return value of `get_statistics`. -/
structure Stats where
  total_prototypes : Nat
  total_clones_created : Nat
  categories_stats : List (String × Nat × Nat)
  most_used_prototype : Option MostUsed
deriving DecidableEq, Repr

/-- The `for pid, metadata in self._metadata.items()` loop of
`get_statistics`: keeps the current best entry and the running maximum
`max_usage` (starting at `None`/`0`), replacing them only on a strictly
larger `usage_count`. -/
def mostUsedAux (l : List (Nat × Metadata)) (best : Option MostUsed)
    (maxu : Nat) : Option MostUsed :=
  match l with
  | [] => best
  | (pid, md) :: rest =>
    if maxu < md.usage_count then
      mostUsedAux rest (some ⟨pid, md.mname, md.usage_count⟩) md.usage_count
    else
      mostUsedAux rest best maxu

/-- `PrototypeManager.get_statistics`: total prototype count, the sum of
the stored prototypes' own `clone_count`s, per-category counts and
clone-count sums, and the most-used entry by metadata `usage_count`. -/
def get_statistics (m : Manager) : Stats :=
  { total_prototypes := m.prototypes.length,
    total_clones_created := (m.prototypes.map (fun p => p.2.clone_count)).sum,
    categories_stats := m.categories.map (fun p =>
      (p.1, p.2.length,
       ((p.2.filterMap (fun pid => alget m.prototypes pid)).map
          (fun r => r.clone_count)).sum)),
    most_used_prototype := mostUsedAux m.metadata none 0 }

/-- Specification-side definition of the most-used prototype, following the
spec's words: "the single entry with the highest registry usage-count, ties
broken by first-encountered in iteration order; a usage-count of zero for
all entries yields none".  Compared against the code's fold
(`mostUsedAux`). -/
def specMostUsed : List (Nat × Metadata) → Option MostUsed
  | [] => none
  | (pid, md) :: rest =>
    match specMostUsed rest with
    | none =>
        if 0 < md.usage_count then some ⟨pid, md.mname, md.usage_count⟩
        else none
    | some b =>
        if b.usage_count ≤ md.usage_count then
          some ⟨pid, md.mname, md.usage_count⟩
        else some b

/-! ### Concrete states for witnesses and counterexamples -/

/-- A resource in `error` status, registered under prototype id 3 in
`mgrErr`. -/
def errRes : Resource :=
  { rid_stem := "i", rid_uid := 0, name := "broken-template",
    region := "us-east-1", status := ResourceStatus.error, tags := [],
    prototype_id := 1, is_prototype := true, cloned_from := none,
    clone_count := 0, created_at := 0, last_cloned_at := none }

/-- Registry holding only `errRes` (id 3); id 99 is unregistered. -/
def mgrErr : Manager :=
  { prototypes := [(3, errRes)],
    metadata := [(3, ⟨"broken-template", "", "vm", [], 0⟩)],
    categories := [("vm", [3])], gen := ⟨4, 5⟩ }

/-- A resource in `deleting` status, registered under prototype id 5 in
`mgrDel`. -/
def delRes : Resource :=
  { rid_stem := "db", rid_uid := 6, name := "db-template",
    region := "eu-west-1", status := ResourceStatus.deleting, tags := [],
    prototype_id := 7, is_prototype := true, cloned_from := none,
    clone_count := 1, created_at := 2, last_cloned_at := some 3 }

/-- Registry holding only `delRes` (id 5); id 77 is unregistered. -/
def mgrDel : Manager :=
  { prototypes := [(5, delRes)],
    metadata := [(5, ⟨"db-template", "", "database", [], 2⟩)],
    categories := [("database", [5])], gen := ⟨8, 9⟩ }

/-- The running resource of the spec's example scenario: its construction
consumed uuid draws 0 (`resource_id`) and 1 (embedded `prototype_id`). -/
def resC1 : Resource :=
  { rid_stem := "i", rid_uid := 0, name := "i-abc123", region := "us-east-1",
    status := ResourceStatus.running, tags := [],
    prototype_id := 1, is_prototype := false, cloned_from := none,
    clone_count := 0, created_at := 0, last_cloned_at := none }

/-- Empty registry whose generator has already produced the draws consumed
by `resC1`.  `register_prototype` will hand out registry id 2. -/
def mgrC1 : Manager :=
  { prototypes := [], metadata := [], categories := [], gen := ⟨2, 1⟩ }

/-! ### Operation sequences over the registry (for the registry invariant) -/

/-- One mutating registry operation: `register_prototype`,
`clone_prototype` or `remove_prototype` with arbitrary arguments. -/
inductive RegOp where
  | reg (r : Resource) (name description category : String)
        (tags : List (String × String))
  | clo (prototype_id : Nat) (new_name : Option String)
  | rem (prototype_id : Nat)
deriving DecidableEq, Repr

/-- Apply one operation, keeping only the registry state. -/
def applyOp (m : Manager) : RegOp → Manager
  | RegOp.reg r n d c t => (register_prototype m r n d c t).2
  | RegOp.clo pid nn => (clone_prototype m pid nn).2
  | RegOp.rem pid => (remove_prototype m pid).2

/-- Run a sequence of registry operations from a starting state. -/
def runOps (m : Manager) (ops : List RegOp) : Manager :=
  ops.foldl applyOp m

/-- Keys of an association list (dict key view). -/
def keysOf {kt vt : Type} (l : List (kt × vt)) : List kt :=
  l.map (fun p => p.1)

/-- Total number of occurrences of a prototype id across all category
lists. -/
def countCat (cats : List (String × List Nat)) (pid : Nat) : Nat :=
  (cats.map (fun p => p.2.count pid)).sum

/-- Registry well-formedness: the inductive invariant maintained by the
three mutating operations.  The claim's invariant is the `pm`/`catOne`/
`catOther` part; the remaining fields (key nodup-ness and freshness of all
stored ids w.r.t. the uuid counter) are what makes it inductive. -/
structure RegInv (m : Manager) : Prop where
  pm : ∀ pid, pid ∈ keysOf m.prototypes ↔ pid ∈ keysOf m.metadata
  ndP : (keysOf m.prototypes).Nodup
  ndM : (keysOf m.metadata).Nodup
  ndC : (keysOf m.categories).Nodup
  freshP : ∀ pid ∈ keysOf m.prototypes, pid < m.gen.nextId
  freshC : ∀ c l, (c, l) ∈ m.categories → ∀ pid ∈ l, pid < m.gen.nextId
  catOne : ∀ pid md, (pid, md) ∈ m.metadata →
    ∃ l, alget m.categories md.category = some l ∧ l.count pid = 1
  catOther : ∀ pid md c l, (pid, md) ∈ m.metadata → (c, l) ∈ m.categories →
    c ≠ md.category → l.count pid = 0

/-! ### Heap model of nested mutable containers (deep-copy isolation)

Python containers are heap objects passed by reference.  To state the
aliasing claims faithfully, tag maps, security-group lists and listener
lists are modelled as cells in an explicit heap, addressed by `Nat`;
`copy.deepcopy` allocates fresh cells, `list.copy()` allocates one fresh
cell whose CONTENTS (including any references) are copied shallowly. -/

/-- One heap cell: a list of strings, a string dict, or a list of
references to other cells (a list of dicts such as ALB `listeners`). -/
inductive Cell where
  | strs (xs : List String)
  | dict (kvs : List (String × String))
  | refs (rs : List Nat)
deriving DecidableEq, Repr

/-- The container heap. -/
abbrev Heap := List Cell

/-- Allocation: returns the fresh address and the grown heap. -/
def halloc (h : Heap) (c : Cell) : Nat × Heap := (h.length, h ++ [c])

/-- Dereference. -/
def hread (h : Heap) (a : Nat) : Option Cell := h[a]?

/-- In-place update of one cell. -/
def hwrite (h : Heap) (a : Nat) (c : Cell) : Heap := List.set h a c

/-- View a cell as a string list (empty for dangling/mistyped refs). -/
def getStrs (h : Heap) (a : Nat) : List String :=
  match hread h a with
  | some (Cell.strs xs) => xs
  | _ => []

/-- View a cell as a string dict. -/
def getDict (h : Heap) (a : Nat) : List (String × String) :=
  match hread h a with
  | some (Cell.dict kvs) => kvs
  | _ => []

/-- View a cell as a reference list. -/
def getRefs (h : Heap) (a : Nat) : List Nat :=
  match hread h a with
  | some (Cell.refs rs) => rs
  | _ => []

/-- Python `d[k] = v` on a dict cell reached through a reference. -/
def setDictValue (h : Heap) (a : Nat) (k v : String) : Heap :=
  hwrite h a (Cell.dict (alset (getDict h a) k v))

/-- `EC2Instance` (aws_products.py lines 11-87) with its two mutable
containers (`tags`, `security_groups`) as heap references. -/
structure EC2Instance where
  rid_uid : Nat
  name : String
  region : String
  status : ResourceStatus
  instance_type : String
  ami : String
  vpc_id : String
  key_pair : String
  private_ip : String
  public_ip : String
  tagsRef : Nat
  sgRef : Nat
  prototype_id : Nat
  is_prototype : Bool
  cloned_from : Option Nat
  clone_count : Nat
  created_at : Nat
  last_cloned_at : Option Nat
deriving DecidableEq, Repr

/-- `copy.deepcopy` of an `EC2Instance`: fresh cells for the tag dict and
the security-group list, contents copied. -/
def ec2Deepcopy (h : Heap) (o : EC2Instance) : EC2Instance × Heap :=
  let (t', h1) := halloc h (Cell.dict (getDict h o.tagsRef))
  let (s', h2) := halloc h1 (Cell.strs (getStrs h1 o.sgRef))
  ({ o with tagsRef := t', sgRef := s' }, h2)

/-- `EC2Instance.clone` (aws_products.py lines 69-87): the base
`CloneableResource.clone` (deepcopy, identity rewrite, source counter
bump), then `cloned.private_ip = ""`, `cloned.public_ip = ""`, and
`cloned.security_groups = self.security_groups.copy()` — a fresh list cell
holding the source's current entries. -/
def ec2Clone (h : Heap) (o : EC2Instance) (g : Gen) :
    EC2Instance × EC2Instance × Heap × Gen :=
  let (c0, h1) := ec2Deepcopy h o
  let (rid, g1) := freshId g
  let (pid, g2) := freshId g1
  let (t1, g3) := nowTime g2
  let c1 := { c0 with rid_uid := rid, prototype_id := pid,
                      is_prototype := false,
                      cloned_from := some o.prototype_id, clone_count := 0,
                      created_at := t1, last_cloned_at := none }
  let (t2, g4) := nowTime g3
  let src := { o with clone_count := o.clone_count + 1,
                      last_cloned_at := some t2 }
  let (sg', h2) := halloc h1 (Cell.strs (getStrs h1 o.sgRef))
  let c2 := { c1 with private_ip := "", public_ip := "", sgRef := sg' }
  (c2, src, h2, g4)

/-- `ApplicationLoadBalancer` (aws_products.py lines 146-209) with its
mutable containers (`tags`, `targets`, `listeners`) as heap references;
`listeners` is a cell holding references to per-listener dict cells. -/
structure ALBInstance where
  rid_uid : Nat
  name : String
  region : String
  status : ResourceStatus
  vpc_id : String
  scheme : String
  dns_name : String
  tagsRef : Nat
  targetsRef : Nat
  listenersRef : Nat
  prototype_id : Nat
  is_prototype : Bool
  cloned_from : Option Nat
  clone_count : Nat
  created_at : Nat
  last_cloned_at : Option Nat
deriving DecidableEq, Repr

/-- Deep copy of a list of dict cells: a fresh copy of every dict. -/
def copyDictCells (h : Heap) : List Nat → List Nat × Heap
  | [] => ([], h)
  | a :: rest =>
    let (a', h1) := halloc h (Cell.dict (getDict h a))
    let (rest', h2) := copyDictCells h1 rest
    (a' :: rest', h2)

/-- `copy.deepcopy` of an `ApplicationLoadBalancer`: fresh tag dict, fresh
target list, a fresh copy of every listener dict and a fresh listener list
referencing the fresh dicts. -/
def albDeepcopy (h : Heap) (o : ALBInstance) : ALBInstance × Heap :=
  let (t', h1) := halloc h (Cell.dict (getDict h o.tagsRef))
  let (tg', h2) := halloc h1 (Cell.strs (getStrs h1 o.targetsRef))
  let (ds', h3) := copyDictCells h2 (getRefs h2 o.listenersRef)
  let (ls', h4) := halloc h3 (Cell.refs ds')
  ({ o with tagsRef := t', targetsRef := tg', listenersRef := ls' }, h4)

/-- `f"{name}-{uid}.{region}.elb.amazonaws.com"`. -/
def mkDnsName (name : String) (uid : Nat) (region : String) : String :=
  name ++ "-" ++ toString uid ++ "." ++ region ++ ".elb.amazonaws.com"

/-- `ApplicationLoadBalancer.clone` (aws_products.py lines 192-209): base
clone, then `cloned.targets = []` (a fresh empty list object),
`cloned.listeners = self.listeners.copy()` — a fresh list cell whose
elements are the SOURCE's own listener dict references (shallow copy) —
and a regenerated DNS name from the clone's fresh resource id. -/
def albClone (h : Heap) (o : ALBInstance) (g : Gen) :
    ALBInstance × ALBInstance × Heap × Gen :=
  let (c0, h1) := albDeepcopy h o
  let (rid, g1) := freshId g
  let (pid, g2) := freshId g1
  let (t1, g3) := nowTime g2
  let c1 := { c0 with rid_uid := rid, prototype_id := pid,
                      is_prototype := false,
                      cloned_from := some o.prototype_id, clone_count := 0,
                      created_at := t1, last_cloned_at := none }
  let (t2, g4) := nowTime g3
  let src := { o with clone_count := o.clone_count + 1,
                      last_cloned_at := some t2 }
  let (tg', h2) := halloc h1 (Cell.strs [])
  let (ls', h3) := halloc h2 (Cell.refs (getRefs h2 o.listenersRef))
  let c2 := { c1 with targetsRef := tg', listenersRef := ls',
                      dns_name := mkDnsName c1.name rid c1.region }
  (c2, src, h3, g4)

/-- Concrete heap for the aliasing counterexample: tag dict at 0, target
list at 1, one listener dict at 2, the listeners reference list at 3. -/
def albHeap0 : Heap :=
  [Cell.dict [("env", "prod")], Cell.strs ["i-1"],
   Cell.dict [("path", "/health")], Cell.refs [2]]

/-- Concrete running ALB whose containers live in `albHeap0`. -/
def alb0 : ALBInstance :=
  { rid_uid := 0, name := "lb", region := "us-east-1",
    status := ResourceStatus.running, vpc_id := "vpc-1",
    scheme := "internet-facing",
    dns_name := "lb-0.us-east-1.elb.amazonaws.com",
    tagsRef := 0, targetsRef := 1, listenersRef := 3,
    prototype_id := 1, is_prototype := true, cloned_from := none,
    clone_count := 0, created_at := 0, last_cloned_at := none }

/-- Generator compatible with `alb0`. -/
def albGen0 : Gen := ⟨2, 1⟩

/-- Concrete heap for the EC2 isolation witness: tag dict at 0,
security-group list at 1. -/
def ec2Heap0 : Heap := [Cell.dict [("env", "dev")], Cell.strs ["sg-1", "sg-2"]]

/-- Concrete running EC2 instance over `ec2Heap0`. -/
def ec2s : EC2Instance :=
  { rid_uid := 0, name := "web", region := "us-east-1",
    status := ResourceStatus.running, instance_type := "t2.micro",
    ami := "ami-1", vpc_id := "vpc-1", key_pair := "kp",
    private_ip := "10.0.0.5", public_ip := "54.1.2.3",
    tagsRef := 0, sgRef := 1, prototype_id := 1, is_prototype := false,
    cloned_from := none, clone_count := 0, created_at := 0,
    last_cloned_at := none }

/-- Generator compatible with `ec2s`. -/
def ec2Gen0 : Gen := ⟨2, 1⟩

/-- Isolation facts for one EC2 clone: the clone's tag dict and
security-group list are fresh content-equal cells, the source keeps its own
cells, and writing any clone cell leaves the source's cells untouched. -/
def EC2CloneIsolated (h : Heap) (o : EC2Instance) (g : Gen) : Prop :=
  (ec2Clone h o g).1.tagsRef ≠ o.tagsRef ∧
  (ec2Clone h o g).1.sgRef ≠ o.sgRef ∧
  (ec2Clone h o g).2.1.tagsRef = o.tagsRef ∧
  (ec2Clone h o g).2.1.sgRef = o.sgRef ∧
  getDict (ec2Clone h o g).2.2.1 (ec2Clone h o g).1.tagsRef =
    getDict h o.tagsRef ∧
  getStrs (ec2Clone h o g).2.2.1 (ec2Clone h o g).1.sgRef =
    getStrs h o.sgRef ∧
  (∀ c : Cell,
    hread (hwrite (ec2Clone h o g).2.2.1 (ec2Clone h o g).1.tagsRef c)
      o.tagsRef = hread h o.tagsRef ∧
    hread (hwrite (ec2Clone h o g).2.2.1 (ec2Clone h o g).1.sgRef c)
      o.sgRef = hread h o.sgRef)

/-- Container facts for one ALB clone: the target list is a fresh cleared
cell, but the listeners list — rebuilt by the shallow
`self.listeners.copy()` — holds exactly the source's listener dict
references. -/
def ALBCloneContainers (ha : Heap) (a : ALBInstance) (g' : Gen) : Prop :=
  (albClone ha a g').1.targetsRef ≠ a.targetsRef ∧
  getStrs (albClone ha a g').2.2.1 (albClone ha a g').1.targetsRef = [] ∧
  (albClone ha a g').1.listenersRef ≠ a.listenersRef ∧
  getRefs (albClone ha a g').2.2.1 (albClone ha a g').1.listenersRef =
    getRefs ha a.listenersRef

/-- Heap extension: all old addresses still resolve to the same cells. -/
def HExt (h h' : Heap) : Prop :=
  h.length ≤ h'.length ∧ ∀ a, a < h.length → hread h' a = hread h a

/-- The concrete ALB clone run of the aliasing counterexample. -/
def albRun : ALBInstance × ALBInstance × Heap × Gen :=
  albClone albHeap0 alb0 albGen0

/-- Heap right after the concrete ALB clone. -/
def albHeapAfter : Heap := albRun.2.2.1

/-- Mutate the first listener dict reached THROUGH THE CLONE:
`clone.listeners[0]["path"] = "/hacked"`. -/
def albMutHeap : Heap :=
  setDictValue albHeapAfter
    ((getRefs albHeapAfter albRun.1.listenersRef).headD 0) "path" "/hacked"

/-! ### `ComputeEngineInstance.clone` and Python attribute resolution -/

/-- Python error outcomes relevant to the embedded methods. -/
inductive PyErr where
  | attributeError (nm : String)
  | valueError (msg : String)
deriving DecidableEq, Repr

/-- `ComputeEngineInstance` (gcp_products.py lines 10-79). -/
structure GCEInstance where
  rid_uid : Nat
  name : String
  region : String
  zone : String
  machine_type : String
  boot_disk_size : Nat
  project_id : String
  status : ResourceStatus
  tags : List (String × String)
  prototype_id : Nat
  is_prototype : Bool
  cloned_from : Option Nat
  clone_count : Nat
  created_at : Nat
  last_cloned_at : Option Nat
deriving DecidableEq, Repr

/-- Every attribute a `ComputeEngineInstance` instance can resolve,
transcribed from the source: the instance attributes set along the
`__init__` chain (`ComputeEngineInstance.__init__`,
`CloudResource.__init__`, `CloneableResource.__init__`) and the methods
defined in the class bodies of its MRO (`ComputeEngineInstance`,
`VirtualMachine`, `CloudResource`, `CloneableResource`, `Prototype`). -/
def gceAttrNames : List String :=
  ["zone", "machine_type", "boot_disk_size", "project_id",
   "resource_id", "name", "region", "status", "tags",
   "prototype_id", "is_prototype", "cloned_from", "clone_count",
   "created_at", "last_cloned_at",
   "start", "stop", "restart", "resize",
   "get_resource_type", "get_specs", "clone",
   "get_prototype_info", "mark_as_prototype", "can_be_cloned"]

/-- Python attribute resolution against `gceAttrNames`. -/
def gceResolveAttr (nm : String) : Option String :=
  if nm ∈ gceAttrNames then some nm else none

/-- `ComputeEngineInstance.clone` (gcp_products.py lines 53-79).  Its first
statement is `if not self._prepare_for_cloning():` — attribute resolution
for `_prepare_for_cloning` runs before anything else.  No class in the MRO
and no `__init__` defines that name (see `gceAttrNames`), so the lookup
raises `AttributeError` and the method never reaches its deep-copy body.
The `some`-branch below is dead code: it could only run if the attribute
existed, and the source defines no body for it anywhere. -/
def gceClone (_o : GCEInstance) : Except PyErr GCEInstance :=
  match gceResolveAttr "_prepare_for_cloning" with
  | none => Except.error (PyErr.attributeError "_prepare_for_cloning")
  | some _ => Except.error (PyErr.attributeError "_prepare_for_cloning")

/-- Concrete running Compute Engine instance (the claim's failing input). -/
def gceSample : GCEInstance :=
  { rid_uid := 0, name := "vm1", region := "us-central1",
    zone := "us-central1-a", machine_type := "e2-standard-2",
    boot_disk_size := 20, project_id := "my-gcp-project",
    status := ResourceStatus.running, tags := [],
    prototype_id := 1, is_prototype := true, cloned_from := none,
    clone_count := 0, created_at := 0, last_cloned_at := none }

/-! ### `VMRepository` (src/app/infrastructure/repository.py) -/

/-- A stored value: a product object (saved via `save_product` /
`store_resource`) or a plain DTO (saved via `save`). -/
inductive RepoVal (dto prod : Type) where
  | dtoVal (v : dto)
  | productVal (p : prod)
deriving DecidableEq, Repr

/-- `VMRepository`: the DTO dict `_store` and the product dict
`_products_store`, both keyed by resource id. -/
structure VMRepo (dto prod : Type) where
  store : List (String × dto)
  products_store : List (String × prod)
deriving DecidableEq, Repr

/-- `VMRepository.get` (repository.py lines 39-47): the products store is
consulted first (`if vm_id in self._products_store`); otherwise the DTO
store; `KeyError("VM not found")` when both miss. -/
def repoGet {dto prod : Type} (repo : VMRepo dto prod) (vm_id : String) :
    Except String (RepoVal dto prod) :=
  match alget repo.products_store vm_id with
  | some p => Except.ok (RepoVal.productVal p)
  | none =>
    match alget repo.store vm_id with
    | some v => Except.ok (RepoVal.dtoVal v)
    | none => Except.error "VM not found"

/-- `VMRepository.delete` (repository.py lines 49-59): deletes the id from
whichever of the two dicts holds it; `KeyError("VM not found")` only when
neither held it. -/
def repoDelete {dto prod : Type} (repo : VMRepo dto prod)
    (vm_id : String) : Except String (VMRepo dto prod) :=
  let s' := if (alget repo.store vm_id).isSome
            then aldel repo.store vm_id else repo.store
  let p' := if (alget repo.products_store vm_id).isSome
            then aldel repo.products_store vm_id else repo.products_store
  if (alget repo.store vm_id).isSome ∨
      (alget repo.products_store vm_id).isSome then
    Except.ok { store := s', products_store := p' }
  else Except.error "VM not found"

/-- Concrete repository for the C10 witness: id "a" in both stores, id "b"
only as DTO, id "c" only as product. -/
def repoSample : VMRepo Nat Nat :=
  { store := [("a", 10), ("b", 20)], products_store := [("a", 30), ("c", 40)] }

/-! ## Theorems -/

theorem clone_eq (r : Resource) (g : Gen) :
    clone r g =
      ({ r with rid_uid := g.nextId, prototype_id := g.nextId + 1,
                is_prototype := false, cloned_from := some r.prototype_id,
                clone_count := 0, created_at := g.clock,
                last_cloned_at := none },
       { r with clone_count := r.clone_count + 1,
                last_cloned_at := some (g.clock + 1) },
       { nextId := g.nextId + 2, clock := g.clock + 2 }) := by
  rfl

/-- C4: the clone returned by the Clone Operation
(`CloneableResource.clone`) has a fresh resource-id uuid part (same
provider stem), a fresh prototype id, `is_prototype = False`,
`cloned_from` equal to the source's own `prototype_id` field,
`clone_count = 0`, a freshly read `created_at`, and `last_cloned_at`
unset. -/
theorem clone_resets_identity_fields (r : Resource) (g : Gen)
    (hwf : WFRes g r) (_hc : can_be_cloned r = true) :
    (clone r g).1.rid_uid ≠ r.rid_uid ∧
    (clone r g).1.rid_stem = r.rid_stem ∧
    (clone r g).1.prototype_id ≠ r.prototype_id ∧
    (clone r g).1.is_prototype = false ∧
    (clone r g).1.cloned_from = some r.prototype_id ∧
    (clone r g).1.clone_count = 0 ∧
    (clone r g).1.created_at = g.clock ∧
    r.created_at ≤ (clone r g).1.created_at ∧
    (clone r g).1.last_cloned_at = none := by
  obtain ⟨h1, h2, h3, h4⟩ := hwf
  exact ⟨Nat.ne_of_gt h1, rfl, Nat.ne_of_gt (Nat.lt_succ_of_lt h2),
    rfl, rfl, rfl, rfl, h3, rfl⟩

/-- Witness for `clone_resets_identity_fields` at `sampleRes`/`sampleGen`. -/
theorem clone_resets_identity_fields_inst :
    WFRes sampleGen sampleRes ∧ can_be_cloned sampleRes = true ∧
    ((clone sampleRes sampleGen).1.rid_uid ≠ sampleRes.rid_uid ∧
     (clone sampleRes sampleGen).1.rid_stem = sampleRes.rid_stem ∧
     (clone sampleRes sampleGen).1.prototype_id ≠ sampleRes.prototype_id ∧
     (clone sampleRes sampleGen).1.is_prototype = false ∧
     (clone sampleRes sampleGen).1.cloned_from = some sampleRes.prototype_id ∧
     (clone sampleRes sampleGen).1.clone_count = 0 ∧
     (clone sampleRes sampleGen).1.created_at = sampleGen.clock ∧
     sampleRes.created_at ≤ (clone sampleRes sampleGen).1.created_at ∧
     (clone sampleRes sampleGen).1.last_cloned_at = none) :=
  ⟨by decide, by decide,
    clone_resets_identity_fields sampleRes sampleGen (by decide) (by decide)⟩

/-- C5: a successful clone increments the source's `clone_count` by exactly
one and sets its `last_cloned_at` to a non-null timestamp at least its prior
value; the clone itself starts with `clone_count = 0` and
`last_cloned_at = None`, and every other source field is untouched. -/
theorem clone_bumps_source_counters (r : Resource) (g : Gen)
    (hwf : WFRes g r) :
    (clone r g).2.1.clone_count = r.clone_count + 1 ∧
    (∃ t, (clone r g).2.1.last_cloned_at = some t ∧
      ∀ p, r.last_cloned_at = some p → p ≤ t) ∧
    (clone r g).1.clone_count = 0 ∧
    (clone r g).1.last_cloned_at = none ∧
    (clone r g).2.1.rid_uid = r.rid_uid ∧
    (clone r g).2.1.prototype_id = r.prototype_id ∧
    (clone r g).2.1.name = r.name ∧
    (clone r g).2.1.status = r.status ∧
    (clone r g).2.1.tags = r.tags := by
  obtain ⟨h1, h2, h3, h4⟩ := hwf
  exact ⟨rfl, ⟨g.clock + 1, rfl, fun p hp => Nat.le_succ_of_le (h4 p hp)⟩,
    rfl, rfl, rfl, rfl, rfl, rfl, rfl⟩

/-- Witness for `clone_bumps_source_counters` at `sampleRes`/`sampleGen`. -/
theorem clone_bumps_source_counters_inst :
    WFRes sampleGen sampleRes ∧
    ((clone sampleRes sampleGen).2.1.clone_count = sampleRes.clone_count + 1 ∧
     (∃ t, (clone sampleRes sampleGen).2.1.last_cloned_at = some t ∧
       ∀ p, sampleRes.last_cloned_at = some p → p ≤ t) ∧
     (clone sampleRes sampleGen).1.clone_count = 0 ∧
     (clone sampleRes sampleGen).1.last_cloned_at = none ∧
     (clone sampleRes sampleGen).2.1.rid_uid = sampleRes.rid_uid ∧
     (clone sampleRes sampleGen).2.1.prototype_id = sampleRes.prototype_id ∧
     (clone sampleRes sampleGen).2.1.name = sampleRes.name ∧
     (clone sampleRes sampleGen).2.1.status = sampleRes.status ∧
     (clone sampleRes sampleGen).2.1.tags = sampleRes.tags) :=
  ⟨by decide, clone_bumps_source_counters sampleRes sampleGen (by decide)⟩

theorem alget_alset_self {kt vt : Type} [DecidableEq kt]
    (l : List (kt × vt)) (k : kt) (v : vt) :
    alget (alset l k v) k = some v := by
  induction l with
  | nil => simp [alset, alget]
  | cons h t ih =>
    obtain ⟨k', v'⟩ := h
    by_cases hk : k' = k <;> simp [alset, alget, hk, ih]

theorem can_be_cloned_false_of_bad_status (p : Resource)
    (hst : p.status = ResourceStatus.deleting ∨
      p.status = ResourceStatus.error) :
    can_be_cloned p = false := by
  rcases hst with h | h <;> simp [can_be_cloned, h]

/-- C2 (amended): cloning a registered prototype whose status is `deleting`
or `error` through `PrototypeManager.clone_prototype` fails by returning
`None` with the whole registry state — in particular the source's
`clone_count` and `last_cloned_at` — left unmodified.  No `InvalidState`
error value carrying the object id and status is produced: the failure
result is the bare `None`. -/
theorem clone_prototype_invalid_state (m : Manager) (pid : Nat)
    (p : Resource) (nn : Option String)
    (hget : alget m.prototypes pid = some p)
    (hst : p.status = ResourceStatus.deleting ∨
      p.status = ResourceStatus.error) :
    clone_prototype m pid nn = (none, m) := by
  unfold clone_prototype get_prototype
  rw [hget]
  simp [can_be_cloned_false_of_bad_status p hst]

/-- Witness for `clone_prototype_invalid_state`: the registry `mgrErr`
holds the `error`-status resource `errRes` under id 3. -/
theorem clone_prototype_invalid_state_inst :
    alget mgrErr.prototypes 3 = some errRes ∧
    (errRes.status = ResourceStatus.deleting ∨
      errRes.status = ResourceStatus.error) ∧
    clone_prototype mgrErr 3 none = (none, mgrErr) :=
  ⟨by decide, by decide,
    clone_prototype_invalid_state mgrErr 3 errRes none (by decide)
      (by decide)⟩

/-- C2 counterexample: the claim asks for an InvalidState error identifying
the object id and its current status.  In the code the failed clone of the
`error`-status prototype (id 3) evaluates to the bare `(None, unchanged
state)` — literally the same value as cloning the unregistered id 99 — so
the failure identifies neither the id nor the status. -/
theorem clone_prototype_invalid_state_cx :
    clone_prototype mgrErr 3 none = (none, mgrErr) ∧
    clone_prototype mgrErr 3 none = clone_prototype mgrErr 99 none := by
  constructor <;> decide

/-- C3 (amended): the two failure outcomes of
`PrototypeManager.clone_prototype` are NOT distinguishable by the caller:
an absent prototype id and a present-but-non-cloneable prototype both
evaluate to exactly `(None, unchanged state)` (and the HTTP controller maps
the `None` to a single 404 response). -/
theorem clone_prototype_failures_indistinct (m : Manager)
    (pid₁ pid₂ : Nat) (p : Resource) (nn₁ nn₂ : Option String)
    (h₁ : alget m.prototypes pid₁ = none)
    (h₂ : alget m.prototypes pid₂ = some p)
    (h₃ : can_be_cloned p = false) :
    clone_prototype m pid₁ nn₁ = (none, m) ∧
    clone_prototype m pid₂ nn₂ = (none, m) := by
  constructor
  · unfold clone_prototype get_prototype
    rw [h₁]
  · unfold clone_prototype get_prototype
    rw [h₂]
    simp [h₃]

/-- Witness for `clone_prototype_failures_indistinct`: in `mgrDel`, id 77
is absent and id 5 holds the `deleting`-status resource `delRes`. -/
theorem clone_prototype_failures_indistinct_inst :
    alget mgrDel.prototypes 77 = none ∧
    alget mgrDel.prototypes 5 = some delRes ∧
    can_be_cloned delRes = false ∧
    clone_prototype mgrDel 77 none = (none, mgrDel) ∧
    clone_prototype mgrDel 5 none = (none, mgrDel) := by
  refine ⟨by decide, by decide, by decide, ?_⟩
  exact clone_prototype_failures_indistinct mgrDel 77 5 delRes none none
    (by decide) (by decide) (by decide)

/-- C3 counterexample: the claim says the absent-id failure and the
invalid-state failure map to distinct result values or error kinds.  At the
concrete registry `mgrDel` the two calls evaluate to the very same value,
so the caller cannot tell them apart. -/
theorem clone_prototype_failures_distinct_cx :
    clone_prototype mgrDel 77 none = clone_prototype mgrDel 5 none ∧
    alget mgrDel.prototypes 77 = none ∧
    alget mgrDel.prototypes 5 = some delRes ∧
    can_be_cloned delRes = false := by
  refine ⟨by decide, by decide, by decide, by decide⟩

theorem clone_prototype_success (m : Manager) (pid : Nat) (p : Resource)
    (nn : String) (hget : alget m.prototypes pid = some p)
    (hc : can_be_cloned p = true) (hnn : ¬ nn = "") :
    clone_prototype m pid (some nn) =
      (some { (clone p m.gen).1 with name := nn },
       { m with prototypes := alset m.prototypes pid (clone p m.gen).2.1,
                metadata :=
                  match alget m.metadata pid with
                  | some md =>
                      alset m.metadata pid
                        { md with usage_count := md.usage_count + 1 }
                  | none => m.metadata,
                gen := (clone p m.gen).2.2 }) := by
  unfold clone_prototype get_prototype
  rw [hget]
  simp [hc, hnn]

/-- C1 (amended): registering a cloneable resource returns registry id `P`;
cloning via `clone_prototype(P, new_name)` returns a clone whose
`clone_count` is 0, whose name is the supplied new name, whose resource id
is fresh, and bumps the registry metadata `usage_count` to 1 — but the
clone's `cloned_from` equals the resource's own embedded `prototype_id`
(assigned in `CloneableResource.__init__`), which is distinct from the
registry id `P`: `register_prototype` never writes `P` onto the
resource. -/
theorem register_then_clone_scenario (m : Manager) (r : Resource)
    (name d cat nn : String) (tg : List (String × String))
    (hpid : r.prototype_id < m.gen.nextId)
    (hrid : r.rid_uid < m.gen.nextId)
    (hc : can_be_cloned r = true) (hnn : ¬ nn = "") :
    ∃ c,
      (clone_prototype (register_prototype m r name d cat tg).2
        (register_prototype m r name d cat tg).1 (some nn)).1 = some c ∧
      c.cloned_from = some r.prototype_id ∧
      c.cloned_from ≠ some (register_prototype m r name d cat tg).1 ∧
      c.clone_count = 0 ∧ c.name = nn ∧
      c.rid_uid ≠ r.rid_uid ∧ c.last_cloned_at = none ∧
      ∃ md,
        alget (clone_prototype (register_prototype m r name d cat tg).2
            (register_prototype m r name d cat tg).1 (some nn)).2.metadata
          (register_prototype m r name d cat tg).1 = some md ∧
        md.usage_count = 1 := by
  have hget : alget (register_prototype m r name d cat tg).2.prototypes
      (register_prototype m r name d cat tg).1 =
      some (mark_as_prototype r name) :=
    alget_alset_self m.prototypes m.gen.nextId (mark_as_prototype r name)
  have hc' : can_be_cloned (mark_as_prototype r name) = true := hc
  have hsucc := clone_prototype_success
    (register_prototype m r name d cat tg).2
    (register_prototype m r name d cat tg).1
    (mark_as_prototype r name) nn hget hc' hnn
  refine ⟨{ (clone (mark_as_prototype r name)
      (register_prototype m r name d cat tg).2.gen).1 with name := nn },
    ?_, rfl, ?_, rfl, rfl, ?_, rfl, ?_⟩
  · rw [hsucc]
  · intro h
    exact Nat.ne_of_lt hpid (Option.some.inj h)
  · exact Nat.ne_of_gt (Nat.lt_succ_of_lt hrid)
  · rw [hsucc]
    have hmd : alget (register_prototype m r name d cat tg).2.metadata
        (register_prototype m r name d cat tg).1 =
        some ⟨name, d, cat, tg, 0⟩ :=
      alget_alset_self m.metadata m.gen.nextId ⟨name, d, cat, tg, 0⟩
    refine ⟨⟨name, d, cat, tg, 1⟩, ?_, rfl⟩
    show alget (match alget (register_prototype m r name d cat tg).2.metadata
        (register_prototype m r name d cat tg).1 with
      | some md =>
          alset (register_prototype m r name d cat tg).2.metadata
            (register_prototype m r name d cat tg).1
            { md with usage_count := md.usage_count + 1 }
      | none => (register_prototype m r name d cat tg).2.metadata)
      (register_prototype m r name d cat tg).1 = some ⟨name, d, cat, tg, 1⟩
    rw [hmd]
    exact alget_alset_self _ _ _

/-- Witness for `register_then_clone_scenario` at the example scenario:
register `resC1` in `mgrC1`, then clone with new name "web-prod-01". -/
theorem register_then_clone_scenario_inst :
    resC1.prototype_id < mgrC1.gen.nextId ∧
    resC1.rid_uid < mgrC1.gen.nextId ∧
    can_be_cloned resC1 = true ∧
    ¬ ("web-prod-01" : String) = "" ∧
    (∃ c,
      (clone_prototype
        (register_prototype mgrC1 resC1 "web-template" "" "vm" []).2
        (register_prototype mgrC1 resC1 "web-template" "" "vm" []).1
        (some "web-prod-01")).1 = some c ∧
      c.cloned_from = some resC1.prototype_id ∧
      c.cloned_from ≠
        some (register_prototype mgrC1 resC1 "web-template" "" "vm" []).1 ∧
      c.clone_count = 0 ∧ c.name = "web-prod-01" ∧
      c.rid_uid ≠ resC1.rid_uid ∧ c.last_cloned_at = none ∧
      ∃ md,
        alget (clone_prototype
            (register_prototype mgrC1 resC1 "web-template" "" "vm" []).2
            (register_prototype mgrC1 resC1 "web-template" "" "vm" []).1
            (some "web-prod-01")).2.metadata
          (register_prototype mgrC1 resC1 "web-template" "" "vm" []).1 =
          some md ∧
        md.usage_count = 1) :=
  ⟨by decide, by decide, by decide, by decide,
    register_then_clone_scenario mgrC1 resC1 "web-template" "" "vm"
      "web-prod-01" [] (by decide) (by decide) (by decide) (by decide)⟩

/-- C1 counterexample: in the concrete scenario the registry hands out
prototype id `P = 2`, but the returned clone's `cloned_from` is `some 1` —
the resource's embedded `prototype_id` — and NOT `some P` as the claim
states. -/
theorem register_then_clone_cloned_from_cx :
    (register_prototype mgrC1 resC1 "web-template" "" "vm" []).1 = 2 ∧
    ((clone_prototype
        (register_prototype mgrC1 resC1 "web-template" "" "vm" []).2 2
        (some "web-prod-01")).1.map (fun c => c.cloned_from)) =
      some (some 1) ∧
    ¬ (((clone_prototype
        (register_prototype mgrC1 resC1 "web-template" "" "vm" []).2 2
        (some "web-prod-01")).1.map (fun c => c.cloned_from)) =
      some (some 2)) := by
  refine ⟨by decide, by decide, by decide⟩

theorem specMostUsed_pos (l : List (Nat × Metadata)) (b : MostUsed)
    (h : specMostUsed l = some b) : 0 < b.usage_count := by
  induction l generalizing b with
  | nil => simp [specMostUsed] at h
  | cons e rest ih =>
    obtain ⟨pid, md⟩ := e
    rw [specMostUsed] at h
    cases hr : specMostUsed rest with
    | none =>
      rw [hr] at h
      by_cases hz : 0 < md.usage_count
      · simp [hz] at h
        subst h
        exact hz
      · simp [hz] at h
    | some b' =>
      rw [hr] at h
      by_cases hle : b'.usage_count ≤ md.usage_count
      · simp [hle] at h
        subst h
        exact Nat.lt_of_lt_of_le (ih b' hr) hle
      · simp [hle] at h
        subst h
        exact ih _ hr

theorem mostUsedAux_spec (l : List (Nat × Metadata)) (best : Option MostUsed)
    (maxu : Nat)
    (hb : (best = none ∧ maxu = 0) ∨
      (∃ b, best = some b ∧ b.usage_count = maxu ∧ 0 < maxu)) :
    mostUsedAux l best maxu =
      match specMostUsed l with
      | none => best
      | some s => if maxu < s.usage_count then some s else best := by
  induction l generalizing best maxu with
  | nil => simp [mostUsedAux, specMostUsed]
  | cons e rest ih =>
    obtain ⟨pid, md⟩ := e
    rw [mostUsedAux, specMostUsed]
    by_cases hcmp : maxu < md.usage_count
    · simp only [hcmp, if_true]
      rw [ih (some ⟨pid, md.mname, md.usage_count⟩) md.usage_count
        (Or.inr ⟨_, rfl, rfl, Nat.lt_of_le_of_lt (Nat.zero_le _) hcmp⟩)]
      cases hr : specMostUsed rest with
      | none => simp [Nat.lt_of_le_of_lt (Nat.zero_le _) hcmp, hcmp]
      | some s =>
        by_cases hle : s.usage_count ≤ md.usage_count
        · simp [hle, Nat.not_lt.mpr hle, hcmp]
        · have hlt : md.usage_count < s.usage_count := Nat.not_le.mp hle
          simp [hlt, Nat.not_le.mp hle, Nat.lt_trans hcmp hlt,
            Nat.not_le.mpr hlt]
    · simp only [hcmp, if_false]
      rw [ih best maxu hb]
      have hle' : md.usage_count ≤ maxu := Nat.not_lt.mp hcmp
      cases hr : specMostUsed rest with
      | none =>
        by_cases hz : 0 < md.usage_count
        · simp [hz, Nat.not_lt.mpr hle']
        · simp [hz]
      | some s =>
        by_cases hsle : s.usage_count ≤ md.usage_count
        · simp [hsle, Nat.not_lt.mpr (Nat.le_trans hsle hle'),
            Nat.not_lt.mpr hle']
        · simp [hsle, Nat.not_le.mp hsle]

theorem specMostUsed_none_of_all_zero (l : List (Nat × Metadata))
    (h : ∀ e ∈ l, e.2.usage_count = 0) : specMostUsed l = none := by
  induction l with
  | nil => rfl
  | cons e rest ih =>
    obtain ⟨pid, md⟩ := e
    rw [specMostUsed, ih (fun e he => h e (List.mem_cons_of_mem _ he))]
    have hz : md.usage_count = 0 := h (pid, md) (List.mem_cons_self _ _)
    simp [hz]

/-- C9: `get_statistics` reports `total_clones_created` as the sum of the
stored prototypes' own `clone_count`s (not the registry `usage_count`s),
and `most_used_prototype` as the entry with the highest metadata
`usage_count`, ties broken by first-encountered dict-iteration order
(the `specMostUsed` recursion, written from the spec's words), yielding
`none` when every entry's `usage_count` is zero. -/
theorem get_statistics_correct (m : Manager) :
    (get_statistics m).total_prototypes = m.prototypes.length ∧
    (get_statistics m).total_clones_created =
      (m.prototypes.map (fun p => p.2.clone_count)).sum ∧
    (get_statistics m).most_used_prototype = specMostUsed m.metadata ∧
    ((∀ e ∈ m.metadata, e.2.usage_count = 0) →
      (get_statistics m).most_used_prototype = none) := by
  have hmu : (get_statistics m).most_used_prototype =
      specMostUsed m.metadata := by
    show mostUsedAux m.metadata none 0 = specMostUsed m.metadata
    rw [mostUsedAux_spec m.metadata none 0 (Or.inl ⟨rfl, rfl⟩)]
    cases hr : specMostUsed m.metadata with
    | none => rfl
    | some s => simp [specMostUsed_pos m.metadata s hr]
  exact ⟨rfl, rfl, hmu,
    fun hz => hmu.trans (specMostUsed_none_of_all_zero m.metadata hz)⟩

/-- Witness for `get_statistics_correct`: in `mgrErr` every metadata
`usage_count` is zero and the statistics report no most-used prototype. -/
theorem get_statistics_correct_inst :
    (∀ e ∈ mgrErr.metadata, e.2.usage_count = 0) ∧
    (get_statistics mgrErr).most_used_prototype = none :=
  ⟨by decide, (get_statistics_correct mgrErr).2.2.2 (by decide)⟩

section AssocLemmas

variable {kt vt : Type} [DecidableEq kt]

theorem alget_eq_none_iff (l : List (kt × vt)) (k : kt) :
    alget l k = none ↔ k ∉ keysOf l := by
  induction l with
  | nil => simp [alget, keysOf]
  | cons hd t ih =>
    obtain ⟨k', v'⟩ := hd
    by_cases hk : k' = k
    · subst hk
      simp [alget, keysOf]
    · simp only [alget, if_neg hk, keysOf, List.map_cons, List.mem_cons]
      rw [show (keysOf t = t.map (fun p => p.1)) from rfl] at ih
      rw [ih]
      constructor
      · intro hn hmem
        rcases hmem with heq | hm
        · exact hk heq.symm
        · exact hn hm
      · intro hn hm
        exact hn (Or.inr hm)

theorem mem_of_alget_eq_some {l : List (kt × vt)} {k : kt} {v : vt}
    (h : alget l k = some v) : (k, v) ∈ l := by
  induction l with
  | nil => simp [alget] at h
  | cons hd t ih =>
    obtain ⟨k', v'⟩ := hd
    by_cases hk : k' = k
    · subst hk
      simp [alget] at h
      simp [h]
    · simp [alget, hk] at h
      exact List.mem_cons_of_mem _ (ih h)

theorem mem_keys_of_alget_eq_some {l : List (kt × vt)} {k : kt} {v : vt}
    (h : alget l k = some v) : k ∈ keysOf l :=
  List.mem_map.mpr ⟨(k, v), mem_of_alget_eq_some h, rfl⟩

theorem alget_eq_some_of_mem {l : List (kt × vt)} {k : kt} {v : vt}
    (hnd : (keysOf l).Nodup) (h : (k, v) ∈ l) : alget l k = some v := by
  induction l with
  | nil => simp at h
  | cons hd t ih =>
    obtain ⟨k', v'⟩ := hd
    have hnd2 := List.nodup_cons.mp hnd
    rcases List.mem_cons.mp h with heq | ht
    · rw [show k' = (k, v).1 from congrArg Prod.fst heq.symm,
        show v' = (k, v).2 from congrArg Prod.snd heq.symm]
      simp [alget]
    · have hk : k' ≠ k := by
        intro hkk
        subst hkk
        exact hnd2.1 (List.mem_map.mpr ⟨(k', v), ht, rfl⟩)
      simp only [alget, if_neg hk]
      exact ih hnd2.2 ht

theorem exists_val_of_mem_keys {l : List (kt × vt)} {k : kt}
    (h : k ∈ keysOf l) : ∃ v, (k, v) ∈ l := by
  rcases List.mem_map.mp h with ⟨⟨k', v⟩, hm, hk⟩
  cases hk
  exact ⟨v, hm⟩

theorem mem_keys_iff_exists (l : List (kt × vt)) (k : kt) :
    k ∈ keysOf l ↔ ∃ v, (k, v) ∈ l := by
  constructor
  · exact exists_val_of_mem_keys
  · rintro ⟨v, hv⟩
    exact List.mem_map.mpr ⟨(k, v), hv, rfl⟩

theorem keys_alset_of_mem {l : List (kt × vt)} {k : kt} (v : vt)
    (h : k ∈ keysOf l) : keysOf (alset l k v) = keysOf l := by
  induction l with
  | nil => simp [keysOf] at h
  | cons hd t ih =>
    obtain ⟨k0, v0⟩ := hd
    by_cases hk : k0 = k
    · simp [alset, hk, keysOf]
    · have ht : k ∈ keysOf t := by
        have h' : k ∈ k0 :: keysOf t := h
        rcases List.mem_cons.mp h' with heq | hm
        · exact absurd heq.symm hk
        · exact hm
      have hrec := ih ht
      simp only [alset, if_neg hk]
      show k0 :: keysOf (alset t k v) = k0 :: keysOf t
      rw [hrec]

theorem alset_eq_append_of_not_mem {l : List (kt × vt)} {k : kt} (v : vt)
    (h : k ∉ keysOf l) : alset l k v = l ++ [(k, v)] := by
  induction l with
  | nil => rfl
  | cons hd t ih =>
    obtain ⟨k0, v0⟩ := hd
    have hk : k0 ≠ k := by
      intro hkk
      exact h (by simp [keysOf, hkk])
    have ht : k ∉ keysOf t := by
      intro hm
      refine h ?_
      simp only [keysOf, List.map_cons, List.mem_cons]
      exact Or.inr (by simpa [keysOf] using hm)
    simp [alset, hk, ih ht]

theorem mem_alset_iff {l : List (kt × vt)} {k : kt} {v : vt}
    (hnd : (keysOf l).Nodup) (k' : kt) (v' : vt) :
    (k', v') ∈ alset l k v ↔
      (k' = k ∧ v' = v) ∨ ((k', v') ∈ l ∧ k' ≠ k) := by
  induction l with
  | nil =>
    simp [alset, Prod.ext_iff]
  | cons hd t ih =>
    obtain ⟨k0, v0⟩ := hd
    have hndc : (k0 :: keysOf t).Nodup := hnd
    have hnd2 := List.nodup_cons.mp hndc
    have hndt : (keysOf t).Nodup := hnd2.2
    have hk0 : k0 ∉ keysOf t := hnd2.1
    by_cases hk : k0 = k
    · subst hk
      simp only [alset, if_pos rfl]
      constructor
      · intro h
        rcases List.mem_cons.mp h with heq | ht
        · exact Or.inl ⟨congrArg Prod.fst heq, congrArg Prod.snd heq⟩
        · refine Or.inr ⟨List.mem_cons_of_mem _ ht, fun hkk => ?_⟩
          rw [hkk] at ht
          exact hk0 (List.mem_map.mpr ⟨(k0, v'), ht, rfl⟩)
      · intro h
        rcases h with ⟨h1, h2⟩ | ⟨h1, h2⟩
        · subst h1
          subst h2
          exact List.mem_cons_self _ _
        · rcases List.mem_cons.mp h1 with heq | ht
          · have : k' = k0 := congrArg Prod.fst heq
            exact absurd this h2
          · exact List.mem_cons_of_mem _ ht
    · simp only [alset, if_neg hk]
      constructor
      · intro h
        rcases List.mem_cons.mp h with heq | ht
        · refine Or.inr ⟨?_, ?_⟩
          · rw [heq]
            exact List.mem_cons_self _ _
          · have hf : k' = k0 := congrArg Prod.fst heq
            rw [hf]
            exact hk
        · rcases (ih hndt).mp ht with h' | ⟨h1, h2⟩
          · exact Or.inl h'
          · exact Or.inr ⟨List.mem_cons_of_mem _ h1, h2⟩
      · intro h
        rcases h with ⟨h1, h2⟩ | ⟨h1, h2⟩
        · exact List.mem_cons_of_mem _ ((ih hndt).mpr (Or.inl ⟨h1, h2⟩))
        · rcases List.mem_cons.mp h1 with heq | ht
          · rw [heq]
            exact List.mem_cons_self _ _
          · exact List.mem_cons_of_mem _ ((ih hndt).mpr (Or.inr ⟨ht, h2⟩))

theorem alget_alset_ne {l : List (kt × vt)} {k k' : kt} (v : vt)
    (h : k' ≠ k) : alget (alset l k v) k' = alget l k' := by
  induction l with
  | nil =>
    have hkk : k ≠ k' := fun hh => h hh.symm
    simp [alset, alget, hkk]
  | cons hd t ih =>
    obtain ⟨k0, v0⟩ := hd
    by_cases hk : k0 = k
    · subst hk
      have hkk : k0 ≠ k' := fun hh => h hh.symm
      simp [alset, alget, hkk]
    · by_cases hk2 : k0 = k'
      · subst hk2
        simp [alset, alget, hk]
      · simp [alset, alget, hk, hk2, ih]

theorem nodup_keys_aldel {l : List (kt × vt)} (k : kt)
    (hnd : (keysOf l).Nodup) : (keysOf (aldel l k)).Nodup := by
  show ((aldel l k).map (fun p => p.1)).Nodup
  exact List.Nodup.sublist
    (List.Sublist.map (fun p => p.1) (List.filter_sublist l)) hnd

theorem mem_keys_aldel (l : List (kt × vt)) (k k' : kt) :
    k' ∈ keysOf (aldel l k) ↔ k' ∈ keysOf l ∧ k' ≠ k := by
  rw [mem_keys_iff_exists]
  constructor
  · rintro ⟨v, hv⟩
    rw [aldel, List.mem_filter] at hv
    refine ⟨List.mem_map.mpr ⟨(k', v), hv.1, rfl⟩, by simpa using hv.2⟩
  · rintro ⟨hm, hne⟩
    rcases exists_val_of_mem_keys hm with ⟨v, hv⟩
    exact ⟨v, by rw [aldel, List.mem_filter]; exact ⟨hv, by simpa using hne⟩⟩

theorem mem_aldel_iff (l : List (kt × vt)) (k : kt) (k' : kt) (v' : vt) :
    (k', v') ∈ aldel l k ↔ (k', v') ∈ l ∧ k' ≠ k := by
  rw [aldel, List.mem_filter]
  simp

end AssocLemmas

theorem count_singleton_ne {x y : Nat} (h : y ≠ x) : [x].count y = 0 := by
  rw [List.count_singleton']
  simp [show ¬ (x = y) from fun hh => h hh.symm]

theorem register_prototype_state (m : Manager) (r : Resource)
    (n d c : String) (tg : List (String × String)) :
    (register_prototype m r n d c tg).2 =
      { prototypes := alset m.prototypes m.gen.nextId
          (mark_as_prototype r n),
        metadata := alset m.metadata m.gen.nextId ⟨n, d, c, tg, 0⟩,
        categories :=
          match alget m.categories c with
          | none => alset m.categories c [m.gen.nextId]
          | some l => alset m.categories c (l ++ [m.gen.nextId]),
        gen := ⟨m.gen.nextId + 1, m.gen.clock⟩ } := rfl

theorem keysOf_append_single {kt vt : Type} (l : List (kt × vt)) (k : kt)
    (v : vt) : keysOf (l ++ [(k, v)]) = keysOf l ++ [k] := by
  simp [keysOf]

theorem regInv_register (m : Manager) (r : Resource) (n d c : String)
    (tg : List (String × String)) (h : RegInv m) :
    RegInv (register_prototype m r n d c tg).2 := by
  obtain ⟨pm, ndP, ndM, ndC, freshP, freshC, catOne, catOther⟩ := h
  have hpP : m.gen.nextId ∉ keysOf m.prototypes :=
    fun hm => absurd (freshP _ hm) (lt_irrefl _)
  have hpM : m.gen.nextId ∉ keysOf m.metadata :=
    fun hm => hpP ((pm _).mpr hm)
  have hkeyM : ∀ pid' (md' : Metadata), (pid', md') ∈ m.metadata →
      pid' < m.gen.nextId := by
    intro pid' md' hm
    exact freshP _ ((pm _).mpr (List.mem_map.mpr ⟨(pid', md'), hm, rfl⟩))
  rw [register_prototype_state,
    alset_eq_append_of_not_mem _ hpP, alset_eq_append_of_not_mem _ hpM]
  have hpm' : ∀ pid,
      pid ∈ keysOf (m.prototypes ++ [(m.gen.nextId, mark_as_prototype r n)])
        ↔ pid ∈ keysOf (m.metadata ++
            [(m.gen.nextId, (⟨n, d, c, tg, 0⟩ : Metadata))]) := by
    intro q
    rw [keysOf_append_single, keysOf_append_single]
    simp only [List.mem_append]
    exact or_congr (pm q) Iff.rfl
  have hndP' :
      (keysOf (m.prototypes ++
        [(m.gen.nextId, mark_as_prototype r n)])).Nodup := by
    rw [keysOf_append_single]
    refine List.Nodup.append ndP (List.nodup_singleton _) ?_
    intro a ha hb
    rw [List.mem_singleton] at hb
    subst hb
    exact hpP ha
  have hndM' :
      (keysOf (m.metadata ++
        [(m.gen.nextId, (⟨n, d, c, tg, 0⟩ : Metadata))])).Nodup := by
    rw [keysOf_append_single]
    refine List.Nodup.append ndM (List.nodup_singleton _) ?_
    intro a ha hb
    rw [List.mem_singleton] at hb
    subst hb
    exact hpM ha
  have hfreshP' : ∀ pid ∈ keysOf (m.prototypes ++
      [(m.gen.nextId, mark_as_prototype r n)]), pid < m.gen.nextId + 1 := by
    intro q hq
    rw [keysOf_append_single, List.mem_append] at hq
    rcases hq with hq | hq
    · exact Nat.lt_succ_of_lt (freshP _ hq)
    · rw [List.mem_singleton] at hq
      subst hq
      exact Nat.lt_succ_self _
  have hmemM' : ∀ pid' (md' : Metadata),
      (pid', md') ∈ m.metadata ++
        [(m.gen.nextId, (⟨n, d, c, tg, 0⟩ : Metadata))] →
      (pid', md') ∈ m.metadata ∨
        (pid' = m.gen.nextId ∧ md' = ⟨n, d, c, tg, 0⟩) := by
    intro pid' md' hm
    rcases List.mem_append.mp hm with hm | hm
    · exact Or.inl hm
    · rw [List.mem_singleton] at hm
      exact Or.inr ⟨congrArg Prod.fst hm, congrArg Prod.snd hm⟩
  cases hc : alget m.categories c with
  | none =>
    have hcnot : c ∉ keysOf m.categories := (alget_eq_none_iff _ _).mp hc
    rw [alset_eq_append_of_not_mem _ hcnot]
    refine ⟨hpm', hndP', hndM', ?_, hfreshP', ?_, ?_, ?_⟩
    · rw [keysOf_append_single]
      refine List.Nodup.append ndC (List.nodup_singleton _) ?_
      intro a ha hb
      rw [List.mem_singleton] at hb
      subst hb
      exact hcnot ha
    · intro c' l' hmem q hq
      rcases List.mem_append.mp hmem with hm | hm
      · exact Nat.lt_succ_of_lt (freshC c' l' hm q hq)
      · rw [List.mem_singleton] at hm
        have hl : l' = [m.gen.nextId] := congrArg Prod.snd hm
        subst hl
        rw [List.mem_singleton] at hq
        subst hq
        exact Nat.lt_succ_self _
    · intro pid' md' hmem
      rcases hmemM' pid' md' hmem with hm | ⟨hp, hmd⟩
      · rcases catOne pid' md' hm with ⟨l, hget, hcnt⟩
        have hne : md'.category ≠ c := by
          intro hcc
          rw [hcc, hc] at hget
          exact Option.noConfusion hget
        refine ⟨l, ?_, hcnt⟩
        show alget (m.categories ++ [(c, [m.gen.nextId])]) md'.category =
          some l
        rw [← alset_eq_append_of_not_mem _ hcnot, alget_alset_ne _ hne]
        exact hget
      · subst hp
        subst hmd
        refine ⟨[m.gen.nextId], ?_, by simp⟩
        show alget (m.categories ++ [(c, [m.gen.nextId])]) c =
          some [m.gen.nextId]
        rw [← alset_eq_append_of_not_mem _ hcnot]
        exact alget_alset_self _ _ _
    · intro pid' md' c' l' hmem hcm hne
      rcases hmemM' pid' md' hmem with hm | ⟨hp, hmd⟩
      · rcases List.mem_append.mp hcm with hcm' | hcm'
        · exact catOther pid' md' c' l' hm hcm' hne
        · rw [List.mem_singleton] at hcm'
          have hl : l' = [m.gen.nextId] := congrArg Prod.snd hcm'
          subst hl
          exact count_singleton_ne (Nat.ne_of_lt (hkeyM pid' md' hm))
      · subst hp
        subst hmd
        rcases List.mem_append.mp hcm with hcm' | hcm'
        · refine List.count_eq_zero.mpr ?_
          intro hq
          exact absurd (freshC c' l' hcm' _ hq) (lt_irrefl _)
        · rw [List.mem_singleton] at hcm'
          have hcc : c' = c := congrArg Prod.fst hcm'
          exact absurd hcc hne
  | some l0 =>
    have hcmem : c ∈ keysOf m.categories := mem_keys_of_alget_eq_some hc
    have hcl0 : (c, l0) ∈ m.categories := mem_of_alget_eq_some hc
    have hpidl0 : m.gen.nextId ∉ l0 := by
      intro hq
      exact absurd (freshC c l0 hcl0 _ hq) (lt_irrefl _)
    refine ⟨hpm', hndP', hndM', ?_, hfreshP', ?_, ?_, ?_⟩
    · rw [keys_alset_of_mem _ hcmem]
      exact ndC
    · intro c' l' hmem q hq
      rcases (mem_alset_iff ndC c' l').mp hmem with ⟨hcc, hl⟩ | ⟨hm, _⟩
      · subst hl
        rcases List.mem_append.mp hq with hq | hq
        · exact Nat.lt_succ_of_lt (freshC c l0 hcl0 _ hq)
        · rw [List.mem_singleton] at hq
          subst hq
          exact Nat.lt_succ_self _
      · exact Nat.lt_succ_of_lt (freshC c' l' hm q hq)
    · intro pid' md' hmem
      rcases hmemM' pid' md' hmem with hm | ⟨hp, hmd⟩
      · rcases catOne pid' md' hm with ⟨l, hget, hcnt⟩
        by_cases hcc : md'.category = c
        · rw [hcc, hc] at hget
          have hl : l = l0 := (Option.some.inj hget).symm
          subst hl
          refine ⟨l ++ [m.gen.nextId], ?_, ?_⟩
          · rw [hcc]
            exact alget_alset_self _ _ _
          · rw [List.count_append, hcnt,
              count_singleton_ne (Nat.ne_of_lt (hkeyM pid' md' hm))]
        · exact ⟨l, by rw [alget_alset_ne _ hcc]; exact hget, hcnt⟩
      · subst hp
        subst hmd
        refine ⟨l0 ++ [m.gen.nextId], alget_alset_self _ _ _, ?_⟩
        rw [List.count_append, List.count_eq_zero.mpr hpidl0]
        simp
    · intro pid' md' c' l' hmem hcm hne
      rcases hmemM' pid' md' hmem with hm | ⟨hp, hmd⟩
      · rcases (mem_alset_iff ndC c' l').mp hcm with ⟨hcc, hl⟩ | ⟨hm', _⟩
        · subst hl
          subst hcc
          rw [List.count_append,
            catOther pid' md' c' l0 hm hcl0 hne,
            count_singleton_ne (Nat.ne_of_lt (hkeyM pid' md' hm))]
        · exact catOther pid' md' c' l' hm hm' hne
      · subst hp
        subst hmd
        rcases (mem_alset_iff ndC c' l').mp hcm with ⟨hcc, hl⟩ | ⟨hm', hcc⟩
        · exact absurd hcc hne
        · refine List.count_eq_zero.mpr ?_
          intro hq
          exact absurd (freshC c' l' hm' _ hq) (lt_irrefl _)

theorem clone_prototype_state_none (m : Manager) (pid : Nat)
    (nn : Option String) (hget : alget m.prototypes pid = none) :
    (clone_prototype m pid nn).2 = m := by
  unfold clone_prototype get_prototype
  rw [hget]

theorem clone_prototype_state_bad (m : Manager) (pid : Nat) (p : Resource)
    (nn : Option String) (hget : alget m.prototypes pid = some p)
    (hc : can_be_cloned p = false) :
    (clone_prototype m pid nn).2 = m := by
  unfold clone_prototype get_prototype
  rw [hget]
  simp [hc]

theorem clone_prototype_state (m : Manager) (pid : Nat) (p : Resource)
    (nn : Option String) (hget : alget m.prototypes pid = some p)
    (hc : can_be_cloned p = true) :
    (clone_prototype m pid nn).2 =
      { m with prototypes := alset m.prototypes pid (clone p m.gen).2.1,
               metadata :=
                 match alget m.metadata pid with
                 | some md => alset m.metadata pid
                     { md with usage_count := md.usage_count + 1 }
                 | none => m.metadata,
               gen := (clone p m.gen).2.2 } := by
  unfold clone_prototype get_prototype
  rw [hget]
  cases nn <;> simp [hc]

theorem regInv_clone (m : Manager) (pid : Nat) (nn : Option String)
    (h : RegInv m) : RegInv (clone_prototype m pid nn).2 := by
  cases hget : alget m.prototypes pid with
  | none => rwa [clone_prototype_state_none m pid nn hget]
  | some p =>
    cases hcb : can_be_cloned p with
    | false => rwa [clone_prototype_state_bad m pid p nn hget hcb]
    | true =>
      obtain ⟨pm, ndP, ndM, ndC, freshP, freshC, catOne, catOther⟩ := h
      rw [clone_prototype_state m pid p nn hget hcb]
      have hpmem : pid ∈ keysOf m.prototypes := mem_keys_of_alget_eq_some hget
      have hmmem : pid ∈ keysOf m.metadata := (pm pid).mp hpmem
      obtain ⟨md, hmdmem⟩ := exists_val_of_mem_keys hmmem
      have hmdget : alget m.metadata pid = some md :=
        alget_eq_some_of_mem ndM hmdmem
      rw [hmdget]
      have hkP := keys_alset_of_mem (clone p m.gen).2.1 hpmem
      have hkM := keys_alset_of_mem
        ({ md with usage_count := md.usage_count + 1 }) hmmem
      refine ⟨?_, ?_, ?_, ndC, ?_, ?_, ?_, ?_⟩
      · intro q
        show q ∈ keysOf (alset m.prototypes pid (clone p m.gen).2.1) ↔
          q ∈ keysOf (alset m.metadata pid
            { md with usage_count := md.usage_count + 1 })
        rw [hkP, hkM]
        exact pm q
      · show (keysOf (alset m.prototypes pid (clone p m.gen).2.1)).Nodup
        rw [hkP]
        exact ndP
      · show (keysOf (alset m.metadata pid
          { md with usage_count := md.usage_count + 1 })).Nodup
        rw [hkM]
        exact ndM
      · intro q hq
        rw [hkP] at hq
        show q < m.gen.nextId + 2
        exact Nat.lt_succ_of_lt (Nat.lt_succ_of_lt (freshP _ hq))
      · intro c' l' hm q hq
        show q < m.gen.nextId + 2
        exact Nat.lt_succ_of_lt (Nat.lt_succ_of_lt (freshC c' l' hm q hq))
      · intro pid' md' hmem
        rcases (mem_alset_iff ndM pid' md').mp hmem with ⟨hp, hmd⟩ | ⟨hm, _⟩
        · subst hp
          subst hmd
          exact catOne _ md hmdmem
        · exact catOne pid' md' hm
      · intro pid' md' c' l' hmem hcm hne
        rcases (mem_alset_iff ndM pid' md').mp hmem with ⟨hp, hmd⟩ | ⟨hm, _⟩
        · subst hp
          subst hmd
          exact catOther _ md c' l' hmdmem hcm hne
        · exact catOther pid' md' c' l' hm hcm hne

theorem remove_prototype_state_none (m : Manager) (pid : Nat)
    (hget : alget m.prototypes pid = none) :
    (remove_prototype m pid).2 = m := by
  unfold remove_prototype
  rw [hget]

theorem remove_prototype_state (m : Manager) (pid : Nat) (p : Resource)
    (md : Metadata) (l0 : List Nat)
    (hget : alget m.prototypes pid = some p)
    (hmd : alget m.metadata pid = some md)
    (hcat : alget m.categories md.category = some l0) :
    (remove_prototype m pid).2 =
      { m with prototypes := aldel m.prototypes pid,
               metadata := aldel m.metadata pid,
               categories := alset m.categories md.category
                 (l0.filter (fun q => q ≠ pid)) } := by
  simp only [remove_prototype, hget, hmd, hcat]

theorem regInv_remove (m : Manager) (pid : Nat) (h : RegInv m) :
    RegInv (remove_prototype m pid).2 := by
  cases hget : alget m.prototypes pid with
  | none => rwa [remove_prototype_state_none m pid hget]
  | some p =>
    obtain ⟨pm, ndP, ndM, ndC, freshP, freshC, catOne, catOther⟩ := h
    have hpmem : pid ∈ keysOf m.prototypes := mem_keys_of_alget_eq_some hget
    have hmmem : pid ∈ keysOf m.metadata := (pm pid).mp hpmem
    obtain ⟨md, hmdmem⟩ := exists_val_of_mem_keys hmmem
    have hmdget : alget m.metadata pid = some md :=
      alget_eq_some_of_mem ndM hmdmem
    obtain ⟨l0, hcat, hcnt⟩ := catOne pid md hmdmem
    have hcl0mem : (md.category, l0) ∈ m.categories :=
      mem_of_alget_eq_some hcat
    have hcmem : md.category ∈ keysOf m.categories :=
      mem_keys_of_alget_eq_some hcat
    rw [remove_prototype_state m pid p md l0 hget hmdget hcat]
    refine ⟨?_, ?_, ?_, ?_, ?_, ?_, ?_, ?_⟩
    · intro q
      show q ∈ keysOf (aldel m.prototypes pid) ↔
        q ∈ keysOf (aldel m.metadata pid)
      rw [mem_keys_aldel, mem_keys_aldel]
      exact and_congr (pm q) Iff.rfl
    · exact nodup_keys_aldel pid ndP
    · exact nodup_keys_aldel pid ndM
    · show (keysOf (alset m.categories md.category
        (l0.filter (fun q => q ≠ pid)))).Nodup
      rw [keys_alset_of_mem _ hcmem]
      exact ndC
    · intro q hq
      rw [mem_keys_aldel] at hq
      exact freshP _ hq.1
    · intro c' l' hm q hq
      rcases (mem_alset_iff ndC c' l').mp hm with ⟨hcc, hl⟩ | ⟨hm', _⟩
      · subst hl
        rw [List.mem_filter] at hq
        exact freshC md.category l0 hcl0mem q hq.1
      · exact freshC c' l' hm' q hq
    · intro pid' md' hmem
      rw [mem_aldel_iff] at hmem
      obtain ⟨hmem', hne⟩ := hmem
      obtain ⟨l, hget', hcnt'⟩ := catOne pid' md' hmem'
      by_cases hcc : md'.category = md.category
      · have hl : l = l0 := by
          rw [hcc, hcat] at hget'
          exact (Option.some.inj hget').symm
        refine ⟨l0.filter (fun q => q ≠ pid), ?_, ?_⟩
        · rw [hcc]
          exact alget_alset_self _ _ _
        · rw [List.count_filter (by simpa using hne)]
          rw [← hl]
          exact hcnt'
      · exact ⟨l, by rw [alget_alset_ne _ hcc]; exact hget', hcnt'⟩
    · intro pid' md' c' l' hmem hcm hne
      rw [mem_aldel_iff] at hmem
      obtain ⟨hmem', hnp⟩ := hmem
      rcases (mem_alset_iff ndC c' l').mp hcm with ⟨hcc, hl⟩ | ⟨hm', _⟩
      · subst hl
        subst hcc
        rw [List.count_filter (by simpa using hnp)]
        exact catOther pid' md' md.category l0 hmem' hcl0mem hne
      · exact catOther pid' md' c' l' hmem' hm' hne

theorem regInv_init : RegInv initManager := by
  refine ⟨?_, ?_, ?_, ?_, ?_, ?_, ?_, ?_⟩ <;>
    simp [initManager, keysOf]

theorem regInv_apply (m : Manager) (op : RegOp) (h : RegInv m) :
    RegInv (applyOp m op) := by
  cases op with
  | reg r n d c t => exact regInv_register m r n d c t h
  | clo pid nn => exact regInv_clone m pid nn h
  | rem pid => exact regInv_remove m pid h

theorem regInv_run (ops : List RegOp) (m : Manager) (h : RegInv m) :
    RegInv (runOps m ops) := by
  induction ops generalizing m with
  | nil => exact h
  | cons op rest ih => exact ih (applyOp m op) (regInv_apply m op h)

theorem countCat_eq_one (cats : List (String × List Nat)) (pid : Nat)
    (cat : String) (l : List Nat) (hnd : (keysOf cats).Nodup)
    (hget : alget cats cat = some l) (h1 : l.count pid = 1)
    (h0 : ∀ c w, (c, w) ∈ cats → c ≠ cat → w.count pid = 0) :
    countCat cats pid = 1 := by
  induction cats with
  | nil => simp [alget] at hget
  | cons hd t ih =>
    obtain ⟨c0, w0⟩ := hd
    have hndc : (c0 :: keysOf t).Nodup := hnd
    have hnd2 := List.nodup_cons.mp hndc
    by_cases hc : c0 = cat
    · subst hc
      have hw : w0 = l := by simpa [alget] using hget
      subst hw
      have hz : ∀ x ∈ t.map (fun p => p.2.count pid), x = 0 := by
        intro x hx
        rcases List.mem_map.mp hx with ⟨⟨c, w⟩, hm, hxx⟩
        subst hxx
        refine h0 c w (List.mem_cons_of_mem _ hm) ?_
        intro hcc
        subst hcc
        exact hnd2.1 (List.mem_map.mpr ⟨(c, w), hm, rfl⟩)
      show w0.count pid + (t.map (fun p => p.2.count pid)).sum = 1
      rw [h1, List.sum_eq_zero hz]
      rfl
    · have hget' : alget t cat = some l := by simpa [alget, hc] using hget
      have h0' : ∀ c w, (c, w) ∈ t → c ≠ cat → w.count pid = 0 :=
        fun c w hm => h0 c w (List.mem_cons_of_mem _ hm)
      have hh := ih hnd2.2 hget' h0'
      have hw0 : w0.count pid = 0 := h0 c0 w0 (List.mem_cons_self _ _) hc
      show w0.count pid + (t.map (fun p => p.2.count pid)).sum = 1
      rw [hw0]
      simpa [countCat] using hh

/-- C8: in every registry state reachable from the fresh manager by any
sequence of `register_prototype`, `clone_prototype` and `remove_prototype`
calls, every key of the id→Resource dict has a metadata entry and occurs in
the category lists exactly once in total (hence in exactly one category's
list, exactly once). -/
theorem registry_invariant_reachable (ops : List RegOp) (pid : Nat)
    (hmem : pid ∈ keysOf (runOps initManager ops).prototypes) :
    (alget (runOps initManager ops).metadata pid).isSome ∧
    countCat (runOps initManager ops).categories pid = 1 := by
  obtain ⟨pm, ndP, ndM, ndC, freshP, freshC, catOne, catOther⟩ :=
    regInv_run ops initManager regInv_init
  have hmm : pid ∈ keysOf (runOps initManager ops).metadata :=
    (pm pid).mp hmem
  obtain ⟨md, hmdmem⟩ := exists_val_of_mem_keys hmm
  have hmdget := alget_eq_some_of_mem ndM hmdmem
  constructor
  · rw [hmdget]
    rfl
  · obtain ⟨l, hget, hcnt⟩ := catOne pid md hmdmem
    exact countCat_eq_one _ pid md.category l ndC hget hcnt
      (fun c w hm hne => catOther pid md c w hmdmem hm hne)

/-- Witness for `registry_invariant_reachable`: one registration from the
fresh manager; the registered id 0 has metadata and one category slot. -/
theorem registry_invariant_reachable_inst :
    0 ∈ keysOf (runOps initManager
      [RegOp.reg resC1 "web-template" "" "vm" []]).prototypes ∧
    ((alget (runOps initManager
        [RegOp.reg resC1 "web-template" "" "vm" []]).metadata 0).isSome ∧
     countCat (runOps initManager
        [RegOp.reg resC1 "web-template" "" "vm" []]).categories 0 = 1) :=
  ⟨by decide,
    registry_invariant_reachable [RegOp.reg resC1 "web-template" "" "vm" []]
      0 (by decide)⟩

theorem hread_append_left (h tail : Heap) (a : Nat) (ha : a < h.length) :
    hread (h ++ tail) a = hread h a :=
  List.getElem?_append_left ha

theorem hread_concat_self (h : Heap) (c : Cell) :
    hread (h ++ [c]) h.length = some c :=
  List.getElem?_concat_length h c

theorem hread_hwrite_ne (h : Heap) {a b : Nat} (c : Cell) (hab : a ≠ b) :
    hread (hwrite h a c) b = hread h b :=
  List.getElem?_set_ne hab

theorem getStrs_append (h tail : Heap) (a : Nat) (ha : a < h.length) :
    getStrs (h ++ tail) a = getStrs h a := by
  unfold getStrs
  rw [hread_append_left h tail a ha]

theorem getDict_append (h tail : Heap) (a : Nat) (ha : a < h.length) :
    getDict (h ++ tail) a = getDict h a := by
  unfold getDict
  rw [hread_append_left h tail a ha]

theorem getRefs_append (h tail : Heap) (a : Nat) (ha : a < h.length) :
    getRefs (h ++ tail) a = getRefs h a := by
  unfold getRefs
  rw [hread_append_left h tail a ha]

theorem getStrs_concat (h : Heap) (xs : List String) :
    getStrs (h ++ [Cell.strs xs]) h.length = xs := by
  unfold getStrs
  rw [hread_concat_self]

theorem getDict_concat (h : Heap) (kvs : List (String × String)) :
    getDict (h ++ [Cell.dict kvs]) h.length = kvs := by
  unfold getDict
  rw [hread_concat_self]

theorem getRefs_concat (h : Heap) (rs : List Nat) :
    getRefs (h ++ [Cell.refs rs]) h.length = rs := by
  unfold getRefs
  rw [hread_concat_self]

theorem hext_refl (h : Heap) : HExt h h :=
  ⟨Nat.le_refl _, fun _ _ => rfl⟩

theorem hext_trans {h1 h2 h3 : Heap} (a : HExt h1 h2) (b : HExt h2 h3) :
    HExt h1 h3 :=
  ⟨Nat.le_trans a.1 b.1,
   fun x hx => (b.2 x (Nat.lt_of_lt_of_le hx a.1)).trans (a.2 x hx)⟩

theorem hext_append (h tail : Heap) : HExt h (h ++ tail) :=
  ⟨by simp, fun a ha => hread_append_left h tail a ha⟩

theorem copyDictCells_hext (rs : List Nat) :
    ∀ h : Heap, HExt h (copyDictCells h rs).2 := by
  induction rs with
  | nil => intro h; exact hext_refl h
  | cons a rest ih =>
    intro h
    exact hext_trans (hext_append h [Cell.dict (getDict h a)])
      (ih (h ++ [Cell.dict (getDict h a)]))

theorem albDeepcopy_hext (h : Heap) (o : ALBInstance) :
    HExt h (albDeepcopy h o).2 := by
  have s1 := hext_append h [Cell.dict (getDict h o.tagsRef)]
  have s2 := hext_append (h ++ [Cell.dict (getDict h o.tagsRef)])
    [Cell.strs (getStrs (h ++ [Cell.dict (getDict h o.tagsRef)])
      o.targetsRef)]
  set H2 := (h ++ [Cell.dict (getDict h o.tagsRef)]) ++
    [Cell.strs (getStrs (h ++ [Cell.dict (getDict h o.tagsRef)])
      o.targetsRef)] with hH2
  have s3 := copyDictCells_hext (getRefs H2 o.listenersRef) H2
  have s4 := hext_append (copyDictCells H2 (getRefs H2 o.listenersRef)).2
    [Cell.refs (copyDictCells H2 (getRefs H2 o.listenersRef)).1]
  exact hext_trans (hext_trans s1 s2) (hext_trans s3 s4)

theorem getRefs_hext {h h' : Heap} (he : HExt h h') (a : Nat)
    (ha : a < h.length) : getRefs h' a = getRefs h a := by
  unfold getRefs
  rw [he.2 a ha]

/-- C6 (amended): deep-copy isolation holds for the enumerated containers —
the EC2 clone's tag map and security-group list are fresh content-equal
cells whose mutation cannot touch the source, and the ALB clone's target
list is a fresh cleared cell — but the ALB clone's `listeners` list,
rebuilt by the shallow `self.listeners.copy()`, holds the very same
listener dict cells as the source, so mutating a listener dict through the
clone alters the source. -/
theorem clone_container_isolation (h : Heap) (o : EC2Instance) (g : Gen)
    (ht : o.tagsRef < h.length) (hs : o.sgRef < h.length)
    (ha : Heap) (a : ALBInstance) (g' : Gen)
    (hal : a.listenersRef < ha.length) (hag : a.targetsRef < ha.length) :
    EC2CloneIsolated h o g ∧ ALBCloneContainers ha a g' := by
  constructor
  · have e3 : (ec2Deepcopy h o).2 =
        (h ++ [Cell.dict (getDict h o.tagsRef)]) ++
          [Cell.strs (getStrs (h ++ [Cell.dict (getDict h o.tagsRef)])
            o.sgRef)] := rfl
    have hlen2 : (ec2Deepcopy h o).2.length = h.length + 2 := by
      rw [e3]; simp
    have e4 : (ec2Clone h o g).2.2.1 =
        (ec2Deepcopy h o).2 ++
          [Cell.strs (getStrs (ec2Deepcopy h o).2 o.sgRef)] := rfl
    have hsgD : getStrs (ec2Deepcopy h o).2 o.sgRef = getStrs h o.sgRef := by
      rw [e3, getStrs_append _ _ _ (by simp; omega),
        getStrs_append _ _ _ hs]
    have hfr : ∀ b, b < h.length →
        hread (ec2Clone h o g).2.2.1 b = hread h b := by
      intro b hb
      rw [e4, hread_append_left _ _ b (by omega), e3,
        hread_append_left _ _ b (by simp; omega),
        hread_append_left _ _ b hb]
    refine ⟨Nat.ne_of_gt ht, ?_, rfl, rfl, ?_, ?_, ?_⟩
    · show (ec2Deepcopy h o).2.length ≠ o.sgRef
      omega
    · show getDict (ec2Clone h o g).2.2.1 h.length = getDict h o.tagsRef
      rw [e4, getDict_append _ _ _ (by omega), e3,
        getDict_append _ _ _ (by simp), getDict_concat]
    · show getStrs (ec2Clone h o g).2.2.1 (ec2Deepcopy h o).2.length =
        getStrs h o.sgRef
      rw [e4, getStrs_concat, hsgD]
    · intro c
      constructor
      · rw [show (ec2Clone h o g).1.tagsRef = h.length from rfl,
          hread_hwrite_ne _ c (show h.length ≠ o.tagsRef from
            Nat.ne_of_gt ht)]
        exact hfr o.tagsRef ht
      · rw [show (ec2Clone h o g).1.sgRef = (ec2Deepcopy h o).2.length
          from rfl,
          hread_hwrite_ne _ c (show (ec2Deepcopy h o).2.length ≠ o.sgRef
            by omega)]
        exact hfr o.sgRef hs
  · have hD := albDeepcopy_hext ha a
    have a3 : (albClone ha a g').2.2.1 =
        ((albDeepcopy ha a).2 ++ [Cell.strs []]) ++
          [Cell.refs (getRefs ((albDeepcopy ha a).2 ++ [Cell.strs []])
            a.listenersRef)] := rfl
    have hlistD : getRefs ((albDeepcopy ha a).2 ++ [Cell.strs []])
        a.listenersRef = getRefs ha a.listenersRef := by
      rw [getRefs_append _ _ _ (Nat.lt_of_lt_of_le hal hD.1)]
      exact getRefs_hext hD a.listenersRef hal
    refine ⟨?_, ?_, ?_, ?_⟩
    · show (albDeepcopy ha a).2.length ≠ a.targetsRef
      exact Nat.ne_of_gt (Nat.lt_of_lt_of_le hag hD.1)
    · show getStrs (albClone ha a g').2.2.1 (albDeepcopy ha a).2.length = []
      rw [a3, getStrs_append _ _ _ (by simp), getStrs_concat]
    · show ((albDeepcopy ha a).2 ++ [Cell.strs []]).length ≠ a.listenersRef
      have := Nat.lt_of_lt_of_le hal hD.1
      simp only [List.length_append, List.length_cons, List.length_nil]
      omega
    · show getRefs (albClone ha a g').2.2.1
        ((albDeepcopy ha a).2 ++ [Cell.strs []]).length =
        getRefs ha a.listenersRef
      rw [a3, getRefs_concat, hlistD]

/-- Witness for `clone_container_isolation` at the concrete EC2 and ALB
states. -/
theorem clone_container_isolation_inst :
    ec2s.tagsRef < ec2Heap0.length ∧ ec2s.sgRef < ec2Heap0.length ∧
    alb0.listenersRef < albHeap0.length ∧
    alb0.targetsRef < albHeap0.length ∧
    (EC2CloneIsolated ec2Heap0 ec2s ec2Gen0 ∧
     ALBCloneContainers albHeap0 alb0 albGen0) :=
  ⟨by decide, by decide, by decide, by decide,
    clone_container_isolation ec2Heap0 ec2s ec2Gen0 (by decide) (by decide)
      albHeap0 alb0 albGen0 (by decide) (by decide)⟩

/-- C6 counterexample: after the concrete ALB clone, the clone's
`listeners` holds the SAME dict cell (address 2) as the source's;
writing `"path" ↦ "/hacked"` through the clone's first listener changes
the listener dict seen from the source — deep-copy isolation fails for
listener element dicts. -/
theorem alb_listener_aliasing_cx :
    getRefs albHeapAfter albRun.1.listenersRef = [2] ∧
    getRefs albHeapAfter alb0.listenersRef = [2] ∧
    albRun.1.listenersRef ≠ alb0.listenersRef ∧
    (getRefs albHeapAfter alb0.listenersRef).map
      (fun d => getDict albHeapAfter d) = [[("path", "/health")]] ∧
    (getRefs albMutHeap alb0.listenersRef).map
      (fun d => getDict albMutHeap d) = [[("path", "/hacked")]] := by
  refine ⟨by decide, by decide, by decide, by decide, by decide⟩

/-- C7: the per-kind reset policy is NOT applied for the GCP provider:
`ComputeEngineInstance.clone` first calls `self._prepare_for_cloning()`,
an attribute that no class in the hierarchy defines, so cloning any
cloneable Compute Engine instance raises `AttributeError` instead of
producing a reset clone. -/
theorem gce_clone_raises_attribute_error (o : GCEInstance)
    (_hc : o.status = ResourceStatus.running ∨
      o.status = ResourceStatus.stopped ∨
      o.status = ResourceStatus.creating) :
    gceResolveAttr "_prepare_for_cloning" = none ∧
    gceClone o =
      Except.error (PyErr.attributeError "_prepare_for_cloning") := by
  constructor
  · decide
  · unfold gceClone
    cases hx : gceResolveAttr "_prepare_for_cloning" <;> rfl

/-- Witness for `gce_clone_raises_attribute_error` at the concrete running
instance `gceSample`. -/
theorem gce_clone_raises_attribute_error_inst :
    (gceSample.status = ResourceStatus.running ∨
      gceSample.status = ResourceStatus.stopped ∨
      gceSample.status = ResourceStatus.creating) ∧
    (gceResolveAttr "_prepare_for_cloning" = none ∧
     gceClone gceSample =
       Except.error (PyErr.attributeError "_prepare_for_cloning")) :=
  ⟨by decide, gce_clone_raises_attribute_error gceSample (by decide)⟩

theorem alget_aldel_self {kt vt : Type} [DecidableEq kt]
    (l : List (kt × vt)) (k : kt) : alget (aldel l k) k = none := by
  rw [alget_eq_none_iff, mem_keys_aldel]
  simp

/-- C10: `VMRepository.get` returns the products-store object when the id
is present there, falls back to the DTO store otherwise, and raises
`KeyError` only when both stores miss; `delete` removes the id from both
stores and raises `KeyError` only when neither store held it. -/
theorem repo_get_delete_spec (dto prod : Type) (repo : VMRepo dto prod)
    (vm_id : String) :
    (∀ p, alget repo.products_store vm_id = some p →
      repoGet repo vm_id = Except.ok (RepoVal.productVal p)) ∧
    (alget repo.products_store vm_id = none →
      ∀ v, alget repo.store vm_id = some v →
        repoGet repo vm_id = Except.ok (RepoVal.dtoVal v)) ∧
    (alget repo.products_store vm_id = none →
      alget repo.store vm_id = none →
      repoGet repo vm_id = Except.error "VM not found") ∧
    ((alget repo.store vm_id).isSome ∨
        (alget repo.products_store vm_id).isSome →
      ∃ repo', repoDelete repo vm_id = Except.ok repo' ∧
        alget repo'.store vm_id = none ∧
        alget repo'.products_store vm_id = none) ∧
    (alget repo.store vm_id = none →
      alget repo.products_store vm_id = none →
      repoDelete repo vm_id = Except.error "VM not found") := by
  refine ⟨?_, ?_, ?_, ?_, ?_⟩
  · intro p hp
    unfold repoGet
    rw [hp]
  · intro hp v hv
    unfold repoGet
    rw [hp, hv]
  · intro hp hv
    unfold repoGet
    rw [hp, hv]
  · intro hpres
    unfold repoDelete
    rw [if_pos hpres]
    refine ⟨_, rfl, ?_, ?_⟩
    · by_cases hst : (alget repo.store vm_id).isSome
      · simp only [hst, if_true]
        exact alget_aldel_self _ _
      · simp only [hst, if_false]
        exact Option.not_isSome_iff_eq_none.mp hst
    · by_cases hpd : (alget repo.products_store vm_id).isSome
      · simp only [hpd, if_true]
        exact alget_aldel_self _ _
      · simp only [hpd, if_false]
        exact Option.not_isSome_iff_eq_none.mp hpd
  · intro hs hp
    unfold repoDelete
    rw [if_neg]
    simp [hs, hp]

/-- Witness for `repo_get_delete_spec` at `repoSample`: id "a" resolves to
the products-store value 30 (not the DTO value 10), and deleting "a"
clears it from both stores. -/
theorem repo_get_delete_spec_inst :
    alget repoSample.products_store "a" = some 30 ∧
    repoGet repoSample "a" = Except.ok (RepoVal.productVal 30) ∧
    ((alget repoSample.store "a").isSome ∨
      (alget repoSample.products_store "a").isSome) ∧
    (∃ repo', repoDelete repoSample "a" = Except.ok repo' ∧
      alget repo'.store "a" = none ∧
      alget repo'.products_store "a" = none) :=
  ⟨by decide,
   (repo_get_delete_spec Nat Nat repoSample "a").1 30 (by decide),
   by decide,
   (repo_get_delete_spec Nat Nat repoSample "a").2.2.2.1 (by decide)⟩
